import Mathlib

/-!
# Verification of the FTBot Markov text engine (`src/markov_engine.py`)

A shallow embedding of the engine's data model and operations, together with
theorems settling the specification claims.  Python dicts are modelled as
insertion-ordered association lists, numpy arrays as `List ℚ` / `List (List ℚ)`,
machine integers as `ℤ`/`Nat`, and fallible operations return `Option`.

Configuration values live in `ml_config.py`, which is not part of the sources;
where a definition needs them we either take them as explicit parameters
(`k` for `MARKOV_WINDOW_SIZE`, `wc`/`wr` for the generation weights, `prio` for
the subject POS priority) or use the spec-modelled defaults defined below.
-/

set_option maxHeartbeats 1000000

/-- The closed POS enumeration (`nlp_common.PosEnum`).
Modelled from the spec: `nlp_common.py` is not among the sources; the spec
describes a closed set of POS tags from the external tagger plus the `EOS`
sentinel and an `OTHER` bucket. The exact tag inventory is irrelevant to the
claims; we fix a representative closed set. -/
inductive Pos where
  | NOUN | PROPN | VERB | ADJ | ADV | DET | EOS | OTHER
deriving DecidableEq, Repr

instance : Inhabited Pos := ⟨Pos.OTHER⟩

/-- Integer code of a POS tag (`PosEnum.value`), used by the db format. -/
def posCode : Pos → ℤ
  | .NOUN => 1 | .PROPN => 2 | .VERB => 3 | .ADJ => 4
  | .ADV => 5 | .DET => 6 | .EOS => 7 | .OTHER => 8

/-- Inverse of `posCode` (`PosEnum(int)`), failing on unknown codes. -/
def posOfCode : ℤ → Option Pos
  | 1 => some .NOUN | 2 => some .PROPN | 3 => some .VERB | 4 => some .ADJ
  | 5 => some .ADV | 6 => some .DET | 7 => some .EOS | 8 => some .OTHER
  | _ => none

/-- The two-element `values` vector `[count, rating]` of a neighbor
(`NeighborValueIdx.COUNT/RATING`). -/
structure NVal where
  count : ℤ
  rating : ℤ
deriving DecidableEq, Repr

/-- The db-format row stored under a neighbor key:
`[pos.value, values, dist]` (`MarkovNeighbor.to_db_format`). -/
structure NRow where
  pos : Pos
  values : NVal
  dist : List ℤ
deriving DecidableEq, Repr

/-- Source `MarkovNeighbor`: one word's view of one co-occurring word. -/
structure MarkovNeighbor where
  text : String
  pos : Pos
  values : NVal
  dist : List ℤ
deriving DecidableEq, Repr

instance : Inhabited MarkovNeighbor := ⟨⟨"", Pos.OTHER, ⟨0, 0⟩, []⟩⟩

/-- Source `MarkovWord`: a vocabulary entry. The Python `neighbors` dict is modelled
as an insertion-ordered association list. -/
structure MarkovWord where
  text : String
  pos : Pos
  neighbors : List (String × NRow)
deriving DecidableEq, Repr

instance : Inhabited MarkovWord := ⟨⟨"", Pos.OTHER, []⟩⟩

/-- Python-dict insertion/overwrite on an association list: overwriting an
existing key keeps its position, a fresh key is appended at the end
(CPython dict semantics, used by `word.neighbors[key] = n_row`). -/
def assocSet {α : Type} (l : List (String × α)) (key : String) (v : α) :
    List (String × α) :=
  if l.any (fun p => p.1 = key) then
    l.map (fun p => if p.1 = key then (key, v) else p)
  else
    l ++ [(key, v)]

/-- Source `MarkovWord.get_neighbor`: dict lookup returning a `MarkovNeighbor`. -/
def getNeighbor (w : MarkovWord) (key : String) : Option MarkovNeighbor :=
  (w.neighbors.find? (fun p => p.1 = key)).map
    (fun p => ⟨key, p.2.pos, p.2.values, p.2.dist⟩)

/-- Source `MarkovWord.select_neighbors`: filter the neighbors by POS, preserving
insertion order. -/
def selectNeighbors (w : MarkovWord) (pos : Pos) : List MarkovNeighbor :=
  w.neighbors.filterMap
    (fun p => if p.2.pos = pos then some ⟨p.1, p.2.pos, p.2.values, p.2.dist⟩ else none)

/-- Source `MarkovFilters.filter_input`, first substitution: `re.sub(r'(&amp;)', '', s)`.
Scans left to right removing non-overlapping occurrences of `&amp;`. -/
def removeAmp : List Char → List Char
  | '&' :: 'a' :: 'm' :: 'p' :: ';' :: rest => removeAmp rest
  | c :: rest => c :: removeAmp rest
  | [] => []

/-- The character class stripped by `filter_input`:
`[,:;'`-_“^"(){}/\\*]`. -/
def filteredChars : List Char :=
  [',', ':', ';', '\'', '`', '-', '_', '“', '^', '"', '(', ')', '{', '}', '/', '\\', '*']

/-- Source `MarkovFilters.filter_input` on a non-`None` string (the `None`
pass-through is not modelled: the claims are about strings). -/
def filter_input (s : String) : String :=
  ⟨(removeAmp s.toList).filter (fun c => c ∉ filteredChars)⟩

/-- The punctuation class of `smooth_output`: `[.,?!%]`. -/
def smoothChars : List Char := ['.', ',', '?', '!', '%']

/-- Source `MarkovFilters.smooth_output`: `re.sub(r' ([.,?!%])', r'\1', s)` removes
each space immediately preceding one of `. , ? ! %`; scanning resumes after
the replaced match. -/
def smoothAux : List Char → List Char
  | [] => []
  | [c] => [c]
  | a :: b :: rest =>
    if a = ' ' ∧ b ∈ smoothChars then b :: smoothAux rest
    else a :: smoothAux (b :: rest)

/-- Source `MarkovFilters.smooth_output` on a non-`None` string. -/
def smooth_output (s : String) : String := ⟨smoothAux s.toList⟩

/-- Whether the character sequence contains an occurrence of `&amp;`. -/
def containsAmp : List Char → Bool
  | '&' :: 'a' :: 'm' :: 'p' :: ';' :: _ => true
  | _ :: rest => containsAmp rest
  | [] => false

/-- Payload carried by a trie node: the `'_W'` word metadata together with the
`'_N'` neighbors map (`MarkovTrieDb._insert` always writes both). -/
structure Payload where
  text : String
  pos : Pos
  neighbors : List (String × NRow)
deriving DecidableEq, Repr

/-- A node of `MarkovTrieDb._trie`: children keyed by (lowercased) characters,
plus the optional payload. The Python nested dict interleaves child keys and
the two payload keys in one mapping; we separate them (the reserved keys
`'_W'`/`'_N'` have length 2 and can never collide with a single-character
child key). -/
inductive TrieNode where
  | node (children : List (Char × TrieNode)) (payload : Option Payload)

/-- Children of a trie node. -/
def TrieNode.children : TrieNode → List (Char × TrieNode)
  | .node cs _ => cs

/-- Payload of a trie node. -/
def TrieNode.payload : TrieNode → Option Payload
  | .node _ p => p

/-- The empty trie (`MarkovTrieDb.__init__` with no path). -/
def emptyTrie : TrieNode := .node [] none

/-- Child lookup `node[c]` in the children association list. -/
def lookupChild (cs : List (Char × TrieNode)) (c : Char) : Option TrieNode :=
  (cs.find? (fun p => p.1 = c)).map (fun p => p.2)

/-- Replace the child under `c`, or append it if absent (Python
`node[c.lower()] = {}` insertion-order semantics). -/
def setChild (cs : List (Char × TrieNode)) (c : Char) (t : TrieNode) :
    List (Char × TrieNode) :=
  if cs.any (fun p => p.1 = c) then
    cs.map (fun p => if p.1 = c then (c, t) else p)
  else
    cs ++ [(c, t)]

/-- The character walk of `MarkovTrieDb._getnode` (after its length guard):
follow `node[c.lower()]`, returning `none` on a missing child. -/
def trieWalk : TrieNode → List Char → Option TrieNode
  | t, [] => some t
  | .node cs _, c :: rest =>
    match lookupChild cs c.toLower with
    | some child => trieWalk child rest
    | none => none

/-- Source `MarkovTrieDb._getnode`: empty words return `none`, otherwise walk. -/
def trieGetnode (t : TrieNode) (word : String) : Option TrieNode :=
  if word.toList = [] then none else trieWalk t word.toList

/-- Source `MarkovTrieDb._select`: the node found by `_getnode`, provided it
carries a word payload. -/
def trieSelectNode (t : TrieNode) (word : String) : Option TrieNode :=
  match trieGetnode t word with
  | none => none
  | some n => if n.payload.isSome then some n else none

/-- Reconstruction of a `MarkovWord` from a stored payload
(`MarkovWord.from_db_format`). -/
def wordOfPayload (p : Payload) : MarkovWord := ⟨p.text, p.pos, p.neighbors⟩

/-- Source `MarkovTrieDb.select`. -/
def markovSelect (t : TrieNode) (word : String) : Option MarkovWord :=
  match trieSelectNode t word with
  | none => none
  | some n =>
    match n.payload with
    | some p => some (wordOfPayload p)
    | none => none

/-- The path-creating descent of `MarkovTrieDb._insert`: creates missing
children along the (lowercased) path and overwrites the payload of the final
node. Note there is no empty-word guard: an empty path writes the payload at
the current (root) node. -/
def trieInsert : TrieNode → List Char → Payload → TrieNode
  | .node cs _, [], p => .node cs (some p)
  | .node cs pl, c :: rest, p =>
    let child := (lookupChild cs c.toLower).getD emptyTrie
    .node (setChild cs c.toLower (trieInsert child rest p)) pl

/-- Source `MarkovTrieDb.insert`: returns the new trie together with the word
read back from the written row (always succeeds). -/
def markovInsert (t : TrieNode) (w : MarkovWord) : TrieNode × Option MarkovWord :=
  let p : Payload := ⟨w.text, w.pos, w.neighbors⟩
  (trieInsert t w.text.toList p, some (wordOfPayload p))

/-- The in-place payload overwrite of `MarkovTrieDb._update`, as a functional
descent: succeeds only when the walk reaches a node that already has a
payload (`_select` semantics). -/
def trieUpdate : TrieNode → List Char → Payload → Option TrieNode
  | .node cs pl, [], p =>
    match pl with
    | some _ => some (.node cs (some p))
    | none => none
  | .node cs pl, c :: rest, p =>
    match lookupChild cs c.toLower with
    | some child =>
      match trieUpdate child rest p with
      | some child' => some (.node (setChild cs c.toLower child') pl)
      | none => none
    | none => none

/-- Source `MarkovTrieDb.update`: the `_select` inside `_update` goes through
`_getnode`, whose guard rejects empty words. -/
def markovUpdate (t : TrieNode) (w : MarkovWord) : Option (TrieNode × MarkovWord) :=
  if w.text.toList = [] then none
  else
    match trieUpdate t w.text.toList ⟨w.text, w.pos, w.neighbors⟩ with
    | some t' => some (t', wordOfPayload ⟨w.text, w.pos, w.neighbors⟩)
    | none => none

lemma containsAmp_cons_false (c : Char) (rest : List Char)
    (h : containsAmp (c :: rest) = false) : containsAmp rest = false := by
  rw [containsAmp.eq_def] at h
  split at h <;> first | exact h | simp_all

lemma removeAmp_of_not_contains (l : List Char) (h : containsAmp l = false) :
    removeAmp l = l := by
  induction l using removeAmp.induct with
  | case1 rest => simp [containsAmp] at h
  | case2 c rest hside ih =>
    rw [removeAmp.eq_def]
    split
    next rest2 heq =>
      injection heq with h1 h2
      exact absurd h2 (fun hh => hside rest2 h1 hh)
    next c2 rest2 heq =>
      injection heq with h1 h2
      subst h1; subst h2
      rw [ih (containsAmp_cons_false c rest h)]
    next heq => exact absurd heq (by simp)
  | case3 => rfl

lemma mem_filteredChars_not_alnum (c : Char) (hc : c ∈ filteredChars) :
    c.isAlphanum = false := by
  simp only [filteredChars, List.mem_cons, List.not_mem_nil, or_false] at hc
  rcases hc with rfl|rfl|rfl|rfl|rfl|rfl|rfl|rfl|rfl|rfl|rfl|rfl|rfl|rfl|rfl|rfl|rfl <;> decide

lemma mem_smoothChars_not_alnum (c : Char) (hc : c ∈ smoothChars) :
    c.isAlphanum = false := by
  simp only [smoothChars, List.mem_cons, List.not_mem_nil, or_false] at hc
  rcases hc with rfl|rfl|rfl|rfl|rfl <;> decide

lemma filter_alnum_filter (l : List Char) :
    (l.filter (fun c => c ∉ filteredChars)).filter Char.isAlphanum
      = l.filter Char.isAlphanum := by
  rw [List.filter_filter]
  apply List.filter_congr
  intro a _
  by_cases ha : a.isAlphanum
  · have hnm : a ∉ filteredChars := fun hm => by
      simp [mem_filteredChars_not_alnum a hm] at ha
    simp [ha, hnm]
  · simp [ha]

lemma smoothAux_filter_alnum (l : List Char) :
    (smoothAux l).filter Char.isAlphanum = l.filter Char.isAlphanum := by
  induction l using smoothAux.induct with
  | case1 => rfl
  | case2 c => rfl
  | case3 a b rest hab ih =>
    obtain ⟨rfl, hb⟩ := hab
    rw [smoothAux, if_pos ⟨rfl, hb⟩]
    have hba : b.isAlphanum = false := mem_smoothChars_not_alnum b hb
    have hsp : (' ').isAlphanum = false := by decide
    simp [List.filter_cons, hba, hsp, ih]
  | case4 a b rest hab ih =>
    rw [smoothAux, if_neg hab, List.filter_cons, List.filter_cons, ih]

/-- C9, counterexample: the claim says `smooth_output(filter_input(x))` removes
no alphanumeric character of `x`, but `filter_input` deletes every occurrence
of the five-character escape `&amp;`, whose characters `a`, `m`, `p` are
alphanumeric: on `x = "&amp;"` the composition returns `""`. -/
theorem C9_counterexample :
    "&amp;".toList.filter Char.isAlphanum = ['a', 'm', 'p'] ∧
    (smooth_output (filter_input "&amp;")).toList.filter Char.isAlphanum = [] := by
  constructor <;> rfl

/-- C9 (amended): for every input string `x` that contains no occurrence of
`&amp;`, the composition `smooth_output(filter_input(x))` removes no
alphanumeric character from `x`: the subsequence of alphanumeric characters
of the output equals that of `x` (in order, with multiplicity). -/
theorem C9_amended (s : String) (h : containsAmp s.toList = false) :
    (smooth_output (filter_input s)).toList.filter Char.isAlphanum
      = s.toList.filter Char.isAlphanum := by
  have hrepr : (smooth_output (filter_input s)).toList
      = smoothAux ((removeAmp s.toList).filter (fun c => c ∉ filteredChars)) := rfl
  rw [hrepr, removeAmp_of_not_contains s.toList h, smoothAux_filter_alnum,
    filter_alnum_filter]

/-- Witness for C9: a concrete amp-free input. -/
theorem C9_witness :
    containsAmp "a, b .".toList = false ∧
    (smooth_output (filter_input "a, b .")).toList.filter Char.isAlphanum
      = "a, b .".toList.filter Char.isAlphanum :=
  ⟨by decide, C9_amended "a, b ." (by decide)⟩

/-- C7, counterexample: the claim says all three trie operations return `None`
for an empty word text and add no payload, but `_insert` has no empty-text
guard: inserting a word with empty text writes the payload at the trie root
and returns the word (not `None`). -/
theorem C7_counterexample :
    (markovInsert emptyTrie ⟨"", Pos.NOUN, []⟩).2 = some ⟨"", Pos.NOUN, []⟩ ∧
    ((markovInsert emptyTrie ⟨"", Pos.NOUN, []⟩).1).payload
      = some ⟨"", Pos.NOUN, []⟩ := by
  constructor <;> rfl

/-- C7 (amended): for an empty word text, `select` and `update` return `None`
and leave the store unchanged, while `insert` stores a payload at the root
node and returns the word; the root payload is invisible to `select`
(selecting the empty string still yields `None` afterwards). -/
theorem C7_amended (t : TrieNode) (w : MarkovWord) (h : w.text = "") :
    markovSelect t "" = none ∧
    markovUpdate t w = none ∧
    (markovInsert t w).2 = some (wordOfPayload ⟨w.text, w.pos, w.neighbors⟩) ∧
    ((markovInsert t w).1).payload = some ⟨w.text, w.pos, w.neighbors⟩ ∧
    markovSelect (markovInsert t w).1 "" = none := by
  have htl : w.text.toList = [] := by rw [h]; rfl
  refine ⟨rfl, ?_, rfl, ?_, rfl⟩
  · unfold markovUpdate
    rw [htl]
    simp
  · unfold markovInsert
    cases t with
    | node cs pl =>
      rw [htl]
      rfl

/-- Witness for C7 (amended) at a concrete empty-text word. -/
theorem C7_witness :
    markovSelect emptyTrie "" = none ∧
    markovUpdate emptyTrie ⟨"", Pos.VERB, []⟩ = none ∧
    (markovInsert emptyTrie ⟨"", Pos.VERB, []⟩).2
      = some (wordOfPayload ⟨"", Pos.VERB, []⟩) ∧
    ((markovInsert emptyTrie ⟨"", Pos.VERB, []⟩).1).payload
      = some ⟨"", Pos.VERB, []⟩ ∧
    markovSelect (markovInsert emptyTrie ⟨"", Pos.VERB, []⟩).1 "" = none :=
  C7_amended emptyTrie ⟨"", Pos.VERB, []⟩ rfl

/-- Spec-modelled default window size `MARKOV_WINDOW_SIZE` (spec §6: default 8).
Modelled from the spec: `ml_config.py` is not among the sources. -/
def MARKOV_WINDOW_SIZE : Nat := 8

/-- Spec-modelled default generation weight for counts (spec §6: default 1.0).
Modelled from the spec: `ml_config.py` is not among the sources. -/
def MARKOV_GENERATION_WEIGHT_COUNT : ℚ := 1

/-- Spec-modelled default generation weight for the rating (spec §6: default 1.0).
Modelled from the spec: `ml_config.py` is not among the sources. -/
def MARKOV_GENERATION_WEIGHT_RATING : ℚ := 1

/-- Spec-modelled subject POS priority (spec §6: implementation-chosen,
noun-like tags first). Modelled from the spec: `ml_config.py` is not among
the sources. -/
def MARKOV_GENERATE_SUBJECT_POS_PRIORITY : List Pos :=
  [.PROPN, .NOUN, .VERB, .ADJ, .ADV]

/-- Source `MarkovWordProjection`: magnitudes is the `(|N|, 1)` column vector
(modelled as a list of length `|N|`), distances the `(|N|, L)` dense matrix
(a list of `|N|` rows of length `L`). -/
structure MarkovWordProjection where
  magnitudes : List ℚ
  distances : List (List ℚ)
  keys : List String
  pos : List Pos
deriving DecidableEq, Repr

/-- The inner loop of `MarkovWord.project`: scatter the dist histogram of one
neighbor onto the row of matrix space, skipping out-of-bounds targets.
`j` is the running `dist_idx`; the write target is `(j - k) + i`. -/
def projRowAux (k i L : Nat) : List ℤ → Nat → List ℚ → List ℚ
  | [], _, row => row
  | v :: rest, j, row =>
    let s : ℤ := (j : ℤ) - (k : ℤ) + (i : ℤ)
    let row' := if 0 ≤ s ∧ s < (L : ℤ) then row.set s.toNat (v : ℚ) else row
    projRowAux k i L rest (j + 1) row'

/-- One row of the `distance_distributions` matrix, starting from a zero row. -/
def projRow (k i L : Nat) (dist : List ℤ) : List ℚ :=
  projRowAux k i L dist 0 (List.replicate L 0)

/-- Source `MarkovWord.project`, with window size `k` and the two configured
weights `wc`/`wr` as parameters. -/
def project (k : Nat) (wc wr : ℚ) (w : MarkovWord) (i L : Nat) (pos : Pos) :
    MarkovWordProjection :=
  let ns := selectNeighbors w pos
  { magnitudes := ns.map
      (fun n => (n.values.count : ℚ) * wc + (n.values.rating : ℚ) * wr)
    distances := ns.map (fun n => projRow k i L n.dist)
    keys := ns.map (fun n => n.text)
    pos := ns.map (fun n => n.pos) }

lemma getD_set_self {α : Type} (v d : α) :
    ∀ (l : List α) (i : Nat), i < l.length → (l.set i v).getD i d = v
  | [], i, h => absurd h (by simp)
  | a :: l, 0, _ => rfl
  | a :: l, i + 1, h => by
    rw [List.set_cons_succ, List.getD_cons_succ]
    exact getD_set_self v d l i (by simpa using h)

lemma getD_set_ne {α : Type} (v d : α) :
    ∀ (l : List α) (i j : Nat), i ≠ j → (l.set i v).getD j d = l.getD j d
  | [], _, _, _ => rfl
  | a :: l, 0, 0, h => absurd rfl h
  | a :: l, 0, j + 1, _ => by rw [List.set_cons_zero, List.getD_cons_succ, List.getD_cons_succ]
  | a :: l, i + 1, 0, _ => by rw [List.set_cons_succ, List.getD_cons_zero, List.getD_cons_zero]
  | a :: l, i + 1, j + 1, h => by
    rw [List.set_cons_succ, List.getD_cons_succ, List.getD_cons_succ]
    exact getD_set_ne v d l i j (fun e => h (by rw [e]))

lemma getD_replicate {α : Type} (x : α) :
    ∀ (n s : Nat), (List.replicate n x).getD s x = x
  | 0, _ => rfl
  | n + 1, 0 => rfl
  | n + 1, s + 1 => by
    rw [List.replicate_succ, List.getD_cons_succ]
    exact getD_replicate x n s

lemma getD_map {α β : Type} (f : α → β) (d : β) (d' : α) :
    ∀ (l : List α) (n : Nat), n < l.length → (l.map f).getD n d = f (l.getD n d')
  | [], n, h => absurd h (by simp)
  | a :: l, 0, _ => rfl
  | a :: l, n + 1, h => by
    rw [List.map_cons, List.getD_cons_succ, List.getD_cons_succ]
    exact getD_map f d d' l n (by simpa using h)

lemma projRowAux_length (k i L : Nat) :
    ∀ (ds : List ℤ) (j : Nat) (row : List ℚ),
      (projRowAux k i L ds j row).length = row.length
  | [], _, _ => rfl
  | v :: rest, j, row => by
    rw [projRowAux]
    refine (projRowAux_length k i L rest (j + 1) _).trans ?_
    split <;> simp

lemma projRowAux_getD (k i L : Nat) :
    ∀ (ds : List ℤ) (j : Nat) (row : List ℚ), row.length = L →
    ∀ s : Nat, s < L →
    (projRowAux k i L ds j row).getD s 0 =
      if 0 ≤ (s : ℤ) + k - i - j ∧ (s : ℤ) + k - i - j < ds.length then
        (((ds.getD ((s : ℤ) + k - i - j).toNat 0 : ℤ) : ℚ))
      else row.getD s 0
  | [], j, row, hrow, s, hs => by
    rw [projRowAux, if_neg (by simp only [List.length_nil]; push_cast; omega)]
  | v :: rest, j, row, hrow, s, hs => by
    rw [projRowAux]
    have hlen' : (if 0 ≤ (j : ℤ) - (k : ℤ) + (i : ℤ) ∧ (j : ℤ) - (k : ℤ) + (i : ℤ) < (L : ℤ)
        then row.set ((j : ℤ) - (k : ℤ) + (i : ℤ)).toNat (v : ℚ) else row).length = L := by
      split <;> simp [hrow]
    rw [projRowAux_getD k i L rest (j + 1) _ hlen' s hs]
    by_cases ht : (s : ℤ) + k - i - j = 0
    · have hnr : ¬(0 ≤ (s : ℤ) + k - i - (j + 1 : ℕ) ∧
          (s : ℤ) + k - i - (j + 1 : ℕ) < (rest.length : ℤ)) := by push_cast; omega
      rw [if_neg hnr]
      have hcond : (0 : ℤ) ≤ (j : ℤ) - (k : ℤ) + (i : ℤ) ∧
          (j : ℤ) - (k : ℤ) + (i : ℤ) < (L : ℤ) := ⟨by omega, by omega⟩
      rw [if_pos hcond]
      have htn : ((j : ℤ) - (k : ℤ) + (i : ℤ)).toNat = s := by omega
      rw [htn, getD_set_self _ _ _ _ (by omega : s < row.length)]
      have hyes : 0 ≤ (s : ℤ) + k - i - j ∧
          (s : ℤ) + k - i - j < ((v :: rest).length : ℤ) := by
        simp only [List.length_cons]; push_cast; omega
      rw [if_pos hyes]
      have h0 : ((s : ℤ) + k - i - j).toNat = 0 := by omega
      rw [h0, List.getD_cons_zero]
    · have hrs : (if 0 ≤ (j : ℤ) - (k : ℤ) + (i : ℤ) ∧ (j : ℤ) - (k : ℤ) + (i : ℤ) < (L : ℤ)
          then row.set ((j : ℤ) - (k : ℤ) + (i : ℤ)).toNat (v : ℚ) else row).getD s 0
          = row.getD s 0 := by
        split
        next hc => exact getD_set_ne _ _ _ _ _ (fun e => ht (by omega))
        next => rfl
      rw [hrs]
      by_cases hb : 0 ≤ (s : ℤ) + k - i - (j + 1 : ℕ) ∧
          (s : ℤ) + k - i - (j + 1 : ℕ) < (rest.length : ℤ)
      · rw [if_pos hb]
        have hyes : 0 ≤ (s : ℤ) + k - i - j ∧
            (s : ℤ) + k - i - j < ((v :: rest).length : ℤ) := by
          simp only [List.length_cons]; push_cast at hb ⊢; omega
        rw [if_pos hyes]
        have hsucc : ((s : ℤ) + k - i - j).toNat
            = ((s : ℤ) + k - i - (j + 1 : ℕ)).toNat + 1 := by push_cast at hb ⊢; omega
        rw [hsucc, List.getD_cons_succ]
      · rw [if_neg hb]
        rw [if_neg (by simp only [List.length_cons]; push_cast at hb ⊢; omega)]

lemma getD_mem {α : Type} (d : α) :
    ∀ (l : List α) (n : Nat), n < l.length → l.getD n d ∈ l
  | [], n, h => absurd h (by simp)
  | a :: l, 0, _ => List.mem_cons_self a l
  | a :: l, n + 1, h => by
    rw [List.getD_cons_succ]
    exact List.mem_cons_of_mem a (getD_mem d l n (by simpa using h))

lemma projRow_length (k i L : Nat) (dist : List ℤ) :
    (projRow k i L dist).length = L := by
  rw [projRow]
  exact (projRowAux_length k i L dist 0 _).trans (by simp)

/-- C2: for every word, slot index `i`, sentence length `L` and target POS
`p`, `project(i, L, p)` returns a distances matrix of shape `(|N|, L)` and a
magnitudes column of length `|N|` over the POS-filtered neighbors `N`, where
row `n` carries `n.dist[j]` at column `(j - K) + i` for every in-bounds
histogram index `j`, is zero at any column outside the window around `i`,
and the magnitude of `n` is `w_count * count + w_rating * rating`.
(The histogram-length hypothesis is the documented `len(dist) = 2K+1`
invariant; without it the source loop would also scatter entries with
`j > 2K`.) -/
theorem C2_project_shape_content (k : Nat) (wc wr : ℚ) (w : MarkovWord)
    (i L : Nat) (p : Pos)
    (hlen : ∀ n ∈ selectNeighbors w p, n.dist.length = 2 * k + 1) :
    (project k wc wr w i L p).distances.length = (selectNeighbors w p).length ∧
    (∀ row ∈ (project k wc wr w i L p).distances, row.length = L) ∧
    (project k wc wr w i L p).magnitudes.length = (selectNeighbors w p).length ∧
    (∀ nIdx : Nat, nIdx < (selectNeighbors w p).length →
      (∀ j : Nat, j ≤ 2 * k → ∀ s : Nat, (s : ℤ) = (j : ℤ) - k + i → s < L →
        (((project k wc wr w i L p).distances.getD nIdx []).getD s 0
          = ((((selectNeighbors w p).getD nIdx default).dist.getD j 0 : ℤ) : ℚ))) ∧
      (∀ s : Nat, s < L → ((s : ℤ) + k < (i : ℤ) ∨ (i : ℤ) + k < (s : ℤ)) →
        (((project k wc wr w i L p).distances.getD nIdx []).getD s 0 = 0)) ∧
      ((project k wc wr w i L p).magnitudes.getD nIdx 0
        = (((selectNeighbors w p).getD nIdx default).values.count : ℚ) * wc
          + (((selectNeighbors w p).getD nIdx default).values.rating : ℚ) * wr)) := by
  refine ⟨by simp [project], ?_, by simp [project], ?_⟩
  · intro row hr
    simp only [project, List.mem_map] at hr
    obtain ⟨n, _, rfl⟩ := hr
    exact projRow_length k i L n.dist
  · intro nIdx hlt
    have hD : (project k wc wr w i L p).distances.getD nIdx []
        = projRow k i L ((selectNeighbors w p).getD nIdx default).dist := by
      simp only [project]
      exact getD_map _ _ default _ nIdx hlt
    have hM : (project k wc wr w i L p).magnitudes.getD nIdx 0
        = (((selectNeighbors w p).getD nIdx default).values.count : ℚ) * wc
          + (((selectNeighbors w p).getD nIdx default).values.rating : ℚ) * wr := by
      simp only [project]
      exact getD_map _ _ default _ nIdx hlt
    have hnd : ((selectNeighbors w p).getD nIdx default).dist.length = 2 * k + 1 :=
      hlen _ (getD_mem default _ nIdx hlt)
    refine ⟨?_, ?_, hM⟩
    · intro j hj s hseq hsL
      rw [hD, projRow, projRowAux_getD k i L _ 0 _ (by simp) s hsL]
      have hcond : 0 ≤ (s : ℤ) + k - i - (0 : ℕ) ∧ (s : ℤ) + k - i - (0 : ℕ)
          < (((selectNeighbors w p).getD nIdx default).dist.length : ℤ) := by
        rw [hnd]; push_cast; omega
      rw [if_pos hcond]
      have : ((s : ℤ) + k - i - (0 : ℕ)).toNat = j := by push_cast; omega
      rw [this]
    · intro s hsL hfar
      rw [hD, projRow, projRowAux_getD k i L _ 0 _ (by simp) s hsL]
      rw [if_neg (by rw [hnd]; push_cast; omega)]
      exact getD_replicate (0 : ℚ) L s

/-- A concrete word used by the C2 witness: one NOUN neighbor with
`count = 3`, `rating = 5` and dist histogram `[7, 0, 9]` for `K = 1`. -/
def c2word : MarkovWord :=
  ⟨"a", Pos.NOUN, [("b", ⟨Pos.NOUN, ⟨3, 5⟩, [7, 0, 9]⟩)]⟩

/-- Witness for C2 at `k = 1`, `wc = 1`, `wr = 2`, `i = 0`, `L = 2`. -/
theorem C2_witness :
    (∀ n ∈ selectNeighbors c2word Pos.NOUN, n.dist.length = 2 * 1 + 1) ∧
    ((project 1 1 2 c2word 0 2 Pos.NOUN).distances.length
        = (selectNeighbors c2word Pos.NOUN).length ∧
      (∀ row ∈ (project 1 1 2 c2word 0 2 Pos.NOUN).distances, row.length = 2) ∧
      (project 1 1 2 c2word 0 2 Pos.NOUN).magnitudes.length
        = (selectNeighbors c2word Pos.NOUN).length ∧
      (∀ nIdx : Nat, nIdx < (selectNeighbors c2word Pos.NOUN).length →
        (∀ j : Nat, j ≤ 2 * 1 → ∀ s : Nat, (s : ℤ) = (j : ℤ) - 1 + 0 → s < 2 →
          (((project 1 1 2 c2word 0 2 Pos.NOUN).distances.getD nIdx []).getD s 0
            = ((((selectNeighbors c2word Pos.NOUN).getD nIdx default).dist.getD j 0 : ℤ) : ℚ))) ∧
        (∀ s : Nat, s < 2 → ((s : ℤ) + 1 < (0 : ℤ) ∨ (0 : ℤ) + 1 < (s : ℤ)) →
          (((project 1 1 2 c2word 0 2 Pos.NOUN).distances.getD nIdx []).getD s 0 = 0)) ∧
        ((project 1 1 2 c2word 0 2 Pos.NOUN).magnitudes.getD nIdx 0
          = (((selectNeighbors c2word Pos.NOUN).getD nIdx default).values.count : ℚ) * 1
            + (((selectNeighbors c2word Pos.NOUN).getD nIdx default).values.rating : ℚ) * 2))) :=
  ⟨by decide, C2_project_shape_content 1 1 2 c2word 0 2 Pos.NOUN (by decide)⟩

/-- An external-tagger token, reduced to what the engine reads from it:
`text` and the `Pos` computed by `get_pos_from_token`. -/
structure Token where
  text : String
  pos : Pos
deriving DecidableEq, Repr

/-- Modelled from the spec: `nlp_common.one_hot(i, n)` (not among the
sources; spec §4.A): a length-`n` vector, all zero except index `i` set to 1;
fails with `OutOfRange` when `i ∉ [0, n)`. -/
def one_hot (i n : Nat) : Option (List ℤ) :=
  if i < n then some ((List.range n).map (fun j => if j = i then 1 else 0))
  else none

/-- Source `MarkovNeighbor.distance_one_hot`: `one_hot(dist + K, 2K+1)`;
a negative index fails (spec: `OutOfWindow`). -/
def distance_one_hot (k : Nat) (d : ℤ) : Option (List ℤ) :=
  if 0 ≤ d + k then one_hot (d + k).toNat (2 * k + 1) else none

/-- Elementwise numpy addition of two integer vectors; mismatched lengths
raise (broadcasting aside, which training never triggers). -/
def listAdd (a b : List ℤ) : Option (List ℤ) :=
  if a.length = b.length then some (List.zipWith (fun x y => x + y) a b) else none

/-- Source `MarkovNeighbor.from_token`: zeroed values and zeroed dist of
length `2K+1`. -/
def neighborFromToken (k : Nat) (t : Token) : MarkovNeighbor :=
  ⟨t.text, t.pos, ⟨0, 0⟩, List.replicate (2 * k + 1) 0⟩

/-- Source `MarkovWord.from_token`: no neighbors yet. -/
def wordFromToken (t : Token) : MarkovWord := ⟨t.text, t.pos, []⟩

/-- Source `MarkovNeighbor.to_db_format` (value part). -/
def rowOfNeighbor (n : MarkovNeighbor) : NRow := ⟨n.pos, n.values, n.dist⟩

/-- Source `MarkovTrainer.ngramify`: all ordered pairs of distinct tokens of
the sentence at signed distance `d` with `|d| ≤ K`, enumerated in the order
of the two nested loops. -/
def ngramify (k : Nat) (span : List Token) : List (Token × Token × ℤ) :=
  span.enum.flatMap (fun ap =>
    span.enum.filterMap (fun bp =>
      if (bp.1 : ℤ) - (ap.1 : ℤ) = 0 then none
      else if ((bp.1 : ℤ) - (ap.1 : ℤ)).natAbs ≤ k then
        some (ap.2, bp.2, (bp.1 : ℤ) - (ap.1 : ℤ))
      else none))

/-- The word object fetched at the start of a `learn` n-gram step: per-call
cache first, then the store, else a fresh word from the token. -/
def learnWordLookup (db : TrieNode) (cache : List (String × MarkovWord))
    (a : Token) : MarkovWord :=
  match cache.find? (fun p => p.1 = a.text) with
  | some p => p.2
  | none =>
    match markovSelect db a.text with
    | some w => w
    | none => wordFromToken a

/-- The neighbor fetched or created for token `b` under `word`
(`if ngram[1].text in word.neighbors: get_neighbor else from_token`). -/
def learnNeighbor (k : Nat) (word : MarkovWord) (b : Token) : MarkovNeighbor :=
  (getNeighbor word b.text).getD (neighborFromToken k b)

/-- One n-gram step of `MarkovTrainer.learn`: fetch the word, fetch or create
the neighbor, bump its count, add the distance one-hot, store the row back on
the word, write the word back (`update`, else `insert`) and cache it. -/
def learnGram (k : Nat) (st : TrieNode × List (String × MarkovWord))
    (g : Token × Token × ℤ) : Option (TrieNode × List (String × MarkovWord)) :=
  let db := st.1
  let cache := st.2
  let a := g.1
  let b := g.2.1
  let d := g.2.2
  let word := learnWordLookup db cache a
  let neighbor := learnNeighbor k word b
  let neighbor1 : MarkovNeighbor :=
    { neighbor with values := ⟨neighbor.values.count + 1, neighbor.values.rating⟩ }
  match distance_one_hot k d with
  | none => none
  | some hot =>
    match listAdd neighbor1.dist hot with
    | none => none
    | some newDist =>
      let neighbor2 : MarkovNeighbor := { neighbor1 with dist := newDist }
      let word2 : MarkovWord :=
        { word with neighbors := assocSet word.neighbors b.text (rowOfNeighbor neighbor2) }
      let db2 :=
        match markovUpdate db word2 with
        | some pr => pr.1
        | none => (markovInsert db word2).1
      some (db2, assocSet cache a.text word2)

/-- Source `MarkovTrainer.learn` on one document (a list of sentences of
tokens): concatenate the n-grams of all sentences, then fold `learnGram`
starting from an empty per-call cache. -/
def learn (k : Nat) (db : TrieNode) (doc : List (List Token)) : Option TrieNode :=
  let ngrams := doc.flatMap (ngramify k)
  (ngrams.foldlM (learnGram k) (db, [])).map (fun st => st.1)

/-- A sequence of `learn` calls starting from the empty store. -/
def learnMany (k : Nat) (docs : List (List (List Token))) : Option TrieNode :=
  docs.foldlM (learn k) emptyTrie

/-- Membership of a neighbor row somewhere in the store: the row occurs in
the neighbors map of some payload of some node of the trie. -/
inductive RowIn (r : NRow) : TrieNode → Prop where
  | payload (cs : List (Char × TrieNode)) (p : Payload) (key : String)
      (hmem : (key, r) ∈ p.neighbors) : RowIn r (.node cs (some p))
  | child (cs : List (Char × TrieNode)) (pl : Option Payload) (c : Char)
      (t : TrieNode) (hct : (c, t) ∈ cs) (h : RowIn r t) : RowIn r (.node cs pl)

/-- The §8 neighbor invariants, for window size `k`. -/
def GoodRow (k : Nat) (r : NRow) : Prop :=
  r.dist.length = 2 * k + 1 ∧ r.dist.getD k 0 = 0 ∧
  (∀ v ∈ r.dist, 0 ≤ v) ∧ r.values.count = r.dist.sum

/-- All neighbor rows of a word satisfy the invariants. -/
def GoodWord (k : Nat) (w : MarkovWord) : Prop :=
  ∀ e ∈ w.neighbors, GoodRow k e.2

/-- All neighbor rows present in the store satisfy the invariants. -/
def GoodTrie (k : Nat) (t : TrieNode) : Prop :=
  ∀ r : NRow, RowIn r t → GoodRow k r

/-- All cached words satisfy the invariants. -/
def GoodCache (k : Nat) (cache : List (String × MarkovWord)) : Prop :=
  ∀ e ∈ cache, GoodWord k e.2

lemma not_rowIn_empty (r : NRow) : ¬ RowIn r emptyTrie := by
  intro h
  rw [show emptyTrie = .node [] none from rfl] at h
  cases h with
  | child cs pl c t hct _ => simp at hct

lemma goodTrie_empty (k : Nat) : GoodTrie k emptyTrie :=
  fun r h => absurd h (not_rowIn_empty r)

lemma lookupChild_mem {cs : List (Char × TrieNode)} {c : Char} {t : TrieNode}
    (h : lookupChild cs c = some t) : (c, t) ∈ cs := by
  unfold lookupChild at h
  cases hf : cs.find? (fun p => p.1 = c) with
  | none => rw [hf] at h; simp at h
  | some p =>
    rw [hf] at h
    simp only [Option.map_some', Option.some.injEq] at h
    have hpm := List.mem_of_find?_eq_some hf
    have hpc := List.find?_some hf
    simp only [decide_eq_true_eq] at hpc
    cases p with
    | mk p1 p2 => simpa [← hpc, ← h] using hpm

lemma mem_setChild {cs : List (Char × TrieNode)} {c : Char} {t : TrieNode}
    {e : Char × TrieNode} (h : e ∈ setChild cs c t) : e ∈ cs ∨ e = (c, t) := by
  unfold setChild at h
  split at h
  · obtain ⟨x, hx, hxe⟩ := List.mem_map.mp h
    by_cases hc : x.1 = c
    · right; rw [if_pos hc] at hxe; exact hxe.symm
    · left; rw [if_neg hc] at hxe; exact hxe ▸ hx
  · rcases List.mem_append.mp h with h1 | h2
    · exact Or.inl h1
    · right; simpa using h2

lemma mem_assocSet {α : Type} {l : List (String × α)} {key : String} {v : α}
    {e : String × α} (h : e ∈ assocSet l key v) : e ∈ l ∨ e = (key, v) := by
  unfold assocSet at h
  split at h
  · obtain ⟨x, hx, hxe⟩ := List.mem_map.mp h
    by_cases hc : x.1 = key
    · right; rw [if_pos hc] at hxe; exact hxe.symm
    · left; rw [if_neg hc] at hxe; exact hxe ▸ hx
  · rcases List.mem_append.mp h with h1 | h2
    · exact Or.inl h1
    · right; simpa using h2

lemma trieWalk_rowIn :
    ∀ (chars : List Char) (t n : TrieNode), trieWalk t chars = some n →
      ∀ r : NRow, RowIn r n → RowIn r t
  | [], t, n, h, r, hr => by
    rw [trieWalk] at h
    injection h with h
    exact h ▸ hr
  | c :: rest, t, n, h, r, hr => by
    cases t with
    | node cs pl =>
      rw [trieWalk] at h
      cases hfind : lookupChild cs c.toLower with
      | none => rw [hfind] at h; exact absurd h (by simp)
      | some child =>
        rw [hfind] at h
        exact RowIn.child cs pl c.toLower child (lookupChild_mem hfind)
          (trieWalk_rowIn rest child n h r hr)

lemma trieSelectNode_walk {t n : TrieNode} {s : String}
    (h : trieSelectNode t s = some n) : trieWalk t s.toList = some n := by
  unfold trieSelectNode at h
  split at h
  · exact absurd h (by simp)
  next m heq =>
    split at h
    · injection h with h
      subst h
      unfold trieGetnode at heq
      split at heq
      · exact absurd heq (by simp)
      · exact heq
    · exact absurd h (by simp)

lemma markovSelect_goodWord {k : Nat} {t : TrieNode} {s : String} {w : MarkovWord}
    (ht : GoodTrie k t) (h : markovSelect t s = some w) : GoodWord k w := by
  unfold markovSelect at h
  split at h
  · exact absurd h (by simp)
  next n hsel =>
    split at h
    next p hp =>
      injection h with h
      intro e he
      have hneighbors : w.neighbors = p.neighbors := by rw [← h]; rfl
      have hrow : RowIn e.2 n := by
        cases n with
        | node cs pl =>
          have hpl : pl = some p := by simpa [TrieNode.payload] using hp
          subst hpl
          exact RowIn.payload cs p e.1 (by rw [← hneighbors]; cases e; exact he)
      exact ht e.2 (trieWalk_rowIn s.toList t n (trieSelectNode_walk hsel) e.2 hrow)
    next => exact absurd h (by simp)

lemma rowIn_trieInsert :
    ∀ (chars : List Char) (t : TrieNode) (p : Payload) (r : NRow),
      RowIn r (trieInsert t chars p) → RowIn r t ∨ ∃ key, (key, r) ∈ p.neighbors
  | [], t, p, r, h => by
    cases t with
    | node cs pl =>
      rw [trieInsert] at h
      cases h with
      | payload _ _ key hmem => exact Or.inr ⟨key, hmem⟩
      | child _ _ c t' hct h' => exact Or.inl (RowIn.child cs pl c t' hct h')
  | c :: rest, t, p, r, h => by
    cases t with
    | node cs pl =>
      rw [trieInsert] at h
      cases h with
      | payload _ p0 key hmem => exact Or.inl (RowIn.payload cs p0 key hmem)
      | child _ _ c2 t2 hct h' =>
        rcases mem_setChild hct with hold | hnew
        · exact Or.inl (RowIn.child cs pl c2 t2 hold h')
        · injection hnew with hc2 ht2
          rw [ht2] at h'
          rcases rowIn_trieInsert rest _ p r h' with hchild | hkey
          · cases hlk : lookupChild cs c.toLower with
            | some c0 =>
              rw [hlk] at hchild
              exact Or.inl (RowIn.child cs pl c.toLower c0 (lookupChild_mem hlk)
                (by simpa using hchild))
            | none =>
              rw [hlk] at hchild
              exact absurd (by simpa using hchild) (not_rowIn_empty r)
          · exact Or.inr hkey

lemma rowIn_trieUpdate :
    ∀ (chars : List Char) (t t' : TrieNode) (p : Payload) (r : NRow),
      trieUpdate t chars p = some t' → RowIn r t' →
      RowIn r t ∨ ∃ key, (key, r) ∈ p.neighbors
  | [], t, t', p, r, hu, h => by
    cases t with
    | node cs pl =>
      unfold trieUpdate at hu
      split at hu
      next p0 =>
        injection hu with hu
        rw [← hu] at h
        cases h with
        | payload _ _ key hmem => exact Or.inr ⟨key, hmem⟩
        | child _ _ c t2 hct h' => exact Or.inl (RowIn.child cs (some p0) c t2 hct h')
      next => exact absurd hu (by simp)
  | c :: rest, t, t', p, r, hu, h => by
    cases t with
    | node cs pl =>
      unfold trieUpdate at hu
      split at hu
      next child hlk =>
        split at hu
        next child' hrec =>
          injection hu with hu
          rw [← hu] at h
          cases h with
          | payload _ p0 key hmem => exact Or.inl (RowIn.payload cs p0 key hmem)
          | child _ _ c2 t2 hct h' =>
            rcases mem_setChild hct with hold | hnew
            · exact Or.inl (RowIn.child cs pl c2 t2 hold h')
            · injection hnew with hc2 ht2
              rw [ht2] at h'
              rcases rowIn_trieUpdate rest child child' p r hrec h' with hchild | hkey
              · exact Or.inl (RowIn.child cs pl c.toLower child (lookupChild_mem hlk) hchild)
              · exact Or.inr hkey
        next => exact absurd hu (by simp)
      next => exact absurd hu (by simp)

lemma sum_onehot_zero : ∀ (n i : Nat), n ≤ i →
    ((List.range n).map (fun j => if j = i then (1 : ℤ) else 0)).sum = 0
  | 0, _, _ => rfl
  | n + 1, i, h => by
    rw [List.range_succ, List.map_append, List.sum_append,
      sum_onehot_zero n i (by omega)]
    simp only [List.map_cons, List.map_nil, List.sum_cons, List.sum_nil]
    rw [if_neg (by omega)]
    ring

lemma sum_onehot_one : ∀ (n i : Nat), i < n →
    ((List.range n).map (fun j => if j = i then (1 : ℤ) else 0)).sum = 1
  | 0, i, h => absurd h (by omega)
  | n + 1, i, h => by
    rw [List.range_succ, List.map_append, List.sum_append]
    simp only [List.map_cons, List.map_nil, List.sum_cons, List.sum_nil]
    by_cases hi : i < n
    · rw [sum_onehot_one n i hi, if_neg (by omega)]
      ring
    · have hin : i = n := by omega
      rw [sum_onehot_zero n i (by omega), if_pos hin.symm]
      ring

lemma onehot_getD (n i s : Nat) (hs : s < n) :
    ((List.range n).map (fun j => if j = i then (1 : ℤ) else 0)).getD s 0
      = if s = i then 1 else 0 := by
  rw [getD_map _ _ 0 _ s (by simpa using hs)]
  congr 1
  rw [List.getD_eq_getElem _ _ (by simpa using hs), List.getElem_range]

lemma distance_one_hot_spec {k : Nat} {d : ℤ} {hot : List ℤ}
    (hd0 : d ≠ 0) (hdk : d.natAbs ≤ k) (h : distance_one_hot k d = some hot) :
    hot.length = 2 * k + 1 ∧ hot.getD k 0 = 0 ∧ (∀ v ∈ hot, 0 ≤ v) ∧
      hot.sum = 1 := by
  unfold distance_one_hot one_hot at h
  rw [if_pos (by omega : (0 : ℤ) ≤ d + k)] at h
  rw [if_pos (by omega : (d + k).toNat < 2 * k + 1)] at h
  injection h with h
  subst h
  refine ⟨by simp, ?_, ?_, sum_onehot_one _ _ (by omega)⟩
  · rw [onehot_getD _ _ _ (by omega), if_neg (by omega)]
  · intro v hv
    obtain ⟨j, _, rfl⟩ := List.mem_map.mp hv
    split <;> omega

lemma listAdd_some {a b c : List ℤ} (h : listAdd a b = some c) :
    a.length = b.length ∧ c = List.zipWith (fun x y => x + y) a b := by
  unfold listAdd at h
  split at h
  next hl => exact ⟨hl, by injection h with h; exact h.symm⟩
  next => exact absurd h (by simp)

lemma zipWith_add_getD : ∀ (a b : List ℤ), a.length = b.length → ∀ s : Nat,
    (List.zipWith (fun x y => x + y) a b).getD s 0 = a.getD s 0 + b.getD s 0
  | [], [], _, s => by simp
  | [], _ :: _, h, _ => absurd h (by simp)
  | _ :: _, [], h, _ => absurd h (by simp)
  | x :: a, y :: b, h, 0 => rfl
  | x :: a, y :: b, h, s + 1 => by
    rw [List.zipWith_cons_cons, List.getD_cons_succ, List.getD_cons_succ,
      List.getD_cons_succ]
    exact zipWith_add_getD a b (by simpa using h) s

lemma zipWith_add_sum : ∀ (a b : List ℤ), a.length = b.length →
    (List.zipWith (fun x y => x + y) a b).sum = a.sum + b.sum
  | [], [], _ => rfl
  | [], _ :: _, h => absurd h (by simp)
  | _ :: _, [], h => absurd h (by simp)
  | x :: a, y :: b, h => by
    rw [List.zipWith_cons_cons, List.sum_cons, List.sum_cons, List.sum_cons,
      zipWith_add_sum a b (by simpa using h)]
    ring

lemma zipWith_add_nonneg : ∀ (a b : List ℤ), (∀ x ∈ a, 0 ≤ x) →
    (∀ y ∈ b, 0 ≤ y) → ∀ v ∈ List.zipWith (fun x y => x + y) a b, 0 ≤ v
  | [], _, _, _, v, hv => absurd hv (by simp)
  | _ :: _, [], _, _, v, hv => absurd hv (by simp)
  | x :: a, y :: b, ha, hb, v, hv => by
    rw [List.zipWith_cons_cons] at hv
    rcases List.mem_cons.mp hv with rfl | hv'
    · have hx := ha x (List.mem_cons_self x a)
      have hy := hb y (List.mem_cons_self y b)
      omega
    · exact zipWith_add_nonneg a b (fun z hz => ha z (List.mem_cons_of_mem x hz))
        (fun z hz => hb z (List.mem_cons_of_mem y hz)) v hv'

lemma learnWordLookup_good {k : Nat} {db : TrieNode}
    {cache : List (String × MarkovWord)} {a : Token}
    (hdb : GoodTrie k db) (hc : GoodCache k cache) :
    GoodWord k (learnWordLookup db cache a) := by
  unfold learnWordLookup
  cases hf : cache.find? (fun p => p.1 = a.text) with
  | some p => exact hc p (List.mem_of_find?_eq_some hf)
  | none =>
    cases hs : markovSelect db a.text with
    | some w => exact markovSelect_goodWord hdb hs
    | none => intro e he; exact absurd he (by simp [wordFromToken])

lemma learnNeighbor_facts {k : Nat} {word : MarkovWord} {b : Token}
    (hw : GoodWord k word) :
    (learnNeighbor k word b).dist.length = 2 * k + 1 ∧
    (learnNeighbor k word b).dist.getD k 0 = 0 ∧
    (∀ v ∈ (learnNeighbor k word b).dist, 0 ≤ v) ∧
    (learnNeighbor k word b).values.count = (learnNeighbor k word b).dist.sum := by
  unfold learnNeighbor
  cases hgn : getNeighbor word b.text with
  | none =>
    refine ⟨by simp [neighborFromToken], ?_, ?_, ?_⟩
    · exact getD_replicate (0 : ℤ) (2 * k + 1) k
    · intro v hv
      simp only [neighborFromToken, Option.getD_none] at hv
      rw [List.eq_of_mem_replicate hv]
    · simp [neighborFromToken]
  | some n =>
    unfold getNeighbor at hgn
    cases hf : word.neighbors.find? (fun p => p.1 = b.text) with
    | none => rw [hf] at hgn; exact absurd hgn (by simp)
    | some p =>
      rw [hf] at hgn
      simp only [Option.map_some', Option.some.injEq] at hgn
      have hrow := hw p (List.mem_of_find?_eq_some hf)
      obtain ⟨h1, h2, h3, h4⟩ := hrow
      rw [← hgn]
      exact ⟨h1, h2, h3, h4⟩

lemma markovUpdate_goodTrie {k : Nat} {db : TrieNode} {w : MarkovWord}
    {pr : TrieNode × MarkovWord} (hdb : GoodTrie k db) (hw : GoodWord k w)
    (h : markovUpdate db w = some pr) : GoodTrie k pr.1 := by
  unfold markovUpdate at h
  split at h
  · exact absurd h (by simp)
  · split at h
    next t' hup =>
      injection h with h
      intro r hr
      rw [← h] at hr
      rcases rowIn_trieUpdate w.text.toList db t' _ r hup hr with hold | ⟨key, hkey⟩
      · exact hdb r hold
      · exact hw (key, r) hkey
    next => exact absurd h (by simp)

lemma markovInsert_goodTrie {k : Nat} {db : TrieNode} {w : MarkovWord}
    (hdb : GoodTrie k db) (hw : GoodWord k w) :
    GoodTrie k (markovInsert db w).1 := by
  intro r hr
  unfold markovInsert at hr
  rcases rowIn_trieInsert w.text.toList db _ r hr with hold | ⟨key, hkey⟩
  · exact hdb r hold
  · exact hw (key, r) hkey

lemma learnGram_good {k : Nat} {st st' : TrieNode × List (String × MarkovWord)}
    {g : Token × Token × ℤ} (hg0 : g.2.2 ≠ 0) (hgk : g.2.2.natAbs ≤ k)
    (hdb : GoodTrie k st.1) (hc : GoodCache k st.2)
    (h : learnGram k st g = some st') : GoodTrie k st'.1 ∧ GoodCache k st'.2 := by
  unfold learnGram at h
  simp only [] at h
  cases hhot : distance_one_hot k g.2.2 with
  | none => rw [hhot] at h; exact absurd h (by simp)
  | some hot =>
    rw [hhot] at h
    simp only [] at h
    obtain ⟨hh1, hh2, hh3, hh4⟩ := distance_one_hot_spec hg0 hgk hhot
    obtain ⟨hn1, hn2, hn3, hn4⟩ :=
      learnNeighbor_facts (b := g.2.1) (learnWordLookup_good (a := g.1) hdb hc)
    cases hadd : listAdd (learnNeighbor k (learnWordLookup st.1 st.2 g.1) g.2.1).dist hot with
    | none => rw [hadd] at h; exact absurd h (by simp)
    | some newDist =>
      rw [hadd] at h
      simp only [] at h
      obtain ⟨hlen, hnd⟩ := listAdd_some hadd
      injection h with h
      have hgoodrow : GoodRow k
          ⟨(learnNeighbor k (learnWordLookup st.1 st.2 g.1) g.2.1).pos,
            ⟨(learnNeighbor k (learnWordLookup st.1 st.2 g.1) g.2.1).values.count + 1,
              (learnNeighbor k (learnWordLookup st.1 st.2 g.1) g.2.1).values.rating⟩,
            newDist⟩ := by
        subst hnd
        refine ⟨?_, ?_, ?_, ?_⟩
        · simp [List.length_zipWith, hn1, hh1]
        · rw [zipWith_add_getD _ _ (by omega) k, hn2, hh2]
          ring
        · exact zipWith_add_nonneg _ _ hn3 hh3
        · rw [zipWith_add_sum _ _ (by omega), ← hn4, hh4]
      have hword2 : GoodWord k
          { learnWordLookup st.1 st.2 g.1 with
            neighbors := assocSet (learnWordLookup st.1 st.2 g.1).neighbors g.2.1.text
              (rowOfNeighbor
                { learnNeighbor k (learnWordLookup st.1 st.2 g.1) g.2.1 with
                  values := ⟨(learnNeighbor k (learnWordLookup st.1 st.2 g.1) g.2.1).values.count + 1,
                    (learnNeighbor k (learnWordLookup st.1 st.2 g.1) g.2.1).values.rating⟩,
                  dist := newDist }) } := by
        intro e he
        rcases mem_assocSet he with hold | hnewe
        · exact learnWordLookup_good (a := g.1) hdb hc e hold
        · rw [hnewe]
          exact hgoodrow
      constructor
      · rw [← h]
        cases hup : markovUpdate st.1
            { learnWordLookup st.1 st.2 g.1 with
              neighbors := assocSet (learnWordLookup st.1 st.2 g.1).neighbors g.2.1.text
                (rowOfNeighbor
                  { learnNeighbor k (learnWordLookup st.1 st.2 g.1) g.2.1 with
                    values := ⟨(learnNeighbor k (learnWordLookup st.1 st.2 g.1) g.2.1).values.count + 1,
                      (learnNeighbor k (learnWordLookup st.1 st.2 g.1) g.2.1).values.rating⟩,
                    dist := newDist }) } with
        | some pr => simp only [hup]; exact markovUpdate_goodTrie hdb hword2 hup
        | none => simp only [hup]; exact markovInsert_goodTrie hdb hword2
      · rw [← h]
        intro e he
        rcases mem_assocSet he with hold | hnewe
        · exact hc e hold
        · rw [hnewe]
          exact hword2

lemma ngramify_dist {k : Nat} {span : List Token} :
    ∀ g ∈ ngramify k span, g.2.2 ≠ 0 ∧ g.2.2.natAbs ≤ k := by
  intro g hg
  unfold ngramify at hg
  obtain ⟨ap, _, hmem⟩ := List.mem_flatMap.mp hg
  obtain ⟨bp, _, hfm⟩ := List.mem_filterMap.mp hmem
  split_ifs at hfm with h0 hk
  · injection hfm with hfm
    rw [← hfm]
    exact ⟨h0, hk⟩

lemma learnGrams_good {k : Nat} :
    ∀ (gs : List (Token × Token × ℤ)) (st st' : TrieNode × List (String × MarkovWord)),
      (∀ g ∈ gs, g.2.2 ≠ 0 ∧ g.2.2.natAbs ≤ k) →
      GoodTrie k st.1 → GoodCache k st.2 →
      gs.foldlM (learnGram k) st = some st' →
      GoodTrie k st'.1 ∧ GoodCache k st'.2
  | [], st, st', _, h1, h2, h => by
    simp only [List.foldlM_nil] at h
    injection h with h
    rw [← h]
    exact ⟨h1, h2⟩
  | g :: gs, st, st', hall, h1, h2, h => by
    rw [List.foldlM_cons] at h
    cases hstep : learnGram k st g with
    | none => rw [hstep] at h; exact absurd h (by simp)
    | some st1 =>
      rw [hstep] at h
      simp only [Option.bind_eq_bind, Option.some_bind] at h
      obtain ⟨hg1, hg2⟩ := hall g (List.mem_cons_self g gs)
      obtain ⟨ht1, ht2⟩ := learnGram_good hg1 hg2 h1 h2 hstep
      exact learnGrams_good gs st1 st'
        (fun x hx => hall x (List.mem_cons_of_mem g hx)) ht1 ht2 h

lemma learn_good {k : Nat} {db db' : TrieNode} {doc : List (List Token)}
    (hdb : GoodTrie k db) (h : learn k db doc = some db') : GoodTrie k db' := by
  unfold learn at h
  simp only [] at h
  cases hfold : (doc.flatMap (ngramify k)).foldlM (learnGram k) (db, []) with
  | none => rw [hfold] at h; exact absurd h (by simp)
  | some st =>
    rw [hfold] at h
    simp only [Option.map_some', Option.some.injEq] at h
    have hprop : ∀ g ∈ doc.flatMap (ngramify k), g.2.2 ≠ 0 ∧ g.2.2.natAbs ≤ k := by
      intro g hg
      obtain ⟨span, _, hspan⟩ := List.mem_flatMap.mp hg
      exact ngramify_dist g hspan
    have := learnGrams_good _ _ st hprop hdb (fun e he => absurd he (by simp)) hfold
    rw [← h]
    exact this.1

lemma learnFold_good {k : Nat} :
    ∀ (docs : List (List (List Token))) (db db' : TrieNode), GoodTrie k db →
      docs.foldlM (learn k) db = some db' → GoodTrie k db'
  | [], db, db', hdb, h => by
    simp only [List.foldlM_nil] at h
    injection h with h
    rw [← h]
    exact hdb
  | doc :: docs, db, db', hdb, h => by
    rw [List.foldlM_cons] at h
    cases hstep : learn k db doc with
    | none => rw [hstep] at h; exact absurd h (by simp)
    | some db1 =>
      rw [hstep] at h
      simp only [Option.bind_eq_bind, Option.some_bind] at h
      exact learnFold_good docs db1 db' (learn_good hdb hstep) h

/-- C3: starting from an empty store, after any sequence of `learn` calls,
every neighbor record present in the store satisfies
`len(dist) = 2K+1`, `dist[K] = 0`, all entries non-negative, and
`count = Σ dist`. -/
theorem C3_trainer_invariants (k : Nat) (docs : List (List (List Token)))
    (db' : TrieNode) (h : learnMany k docs = some db') :
    ∀ r : NRow, RowIn r db' →
      r.dist.length = 2 * k + 1 ∧ r.dist.getD k 0 = 0 ∧
      (∀ v ∈ r.dist, 0 ≤ v) ∧ r.values.count = r.dist.sum :=
  fun r hr => learnFold_good docs emptyTrie db' (goodTrie_empty k) h r hr

/-- The document of spec scenario S1: one sentence `[(A, NOUN), (B, VERB)]`. -/
def c3docs : List (List (List Token)) := [[[⟨"A", .NOUN⟩, ⟨"B", .VERB⟩]]]

/-- The store produced by training on `c3docs` with `K = 2` (spec S1). -/
def c3trie : TrieNode :=
  .node
    [('a', .node [] (some ⟨"A", .NOUN, [("B", ⟨.VERB, ⟨1, 0⟩, [0, 0, 0, 1, 0]⟩)]⟩)),
     ('b', .node [] (some ⟨"B", .VERB, [("A", ⟨.NOUN, ⟨1, 0⟩, [0, 1, 0, 0, 0]⟩)]⟩))]
    none

/-- The neighbor row of `B` under `A` after training on `c3docs`. -/
def c3row : NRow := ⟨.VERB, ⟨1, 0⟩, [0, 0, 0, 1, 0]⟩

/-- Witness for C3 at the S1 scenario (`K = 2`). -/
theorem C3_witness :
    c3row.dist.length = 2 * 2 + 1 ∧ c3row.dist.getD 2 0 = 0 ∧
      (∀ v ∈ c3row.dist, 0 ≤ v) ∧ c3row.values.count = c3row.dist.sum :=
  C3_trainer_invariants 2 c3docs c3trie (by rfl) c3row
    (RowIn.child _ none 'a' _ (List.Mem.head _)
      (RowIn.payload [] _ "B" (List.Mem.head _)))

/-- The generation board `sentence_generations`: one slot array per sentence,
cells are blank (`none`) or hold a word. -/
abbrev Board := List (List (Option MarkovWord))

/-- The splitting loop of `MarkovGenerator._split_sentences`: cut the skeleton
at every `EOS`; the trailing segment after the last `EOS` is never appended.
(`cur` accumulates the current segment.) -/
def splitAux : List Pos → List Pos → List (List Pos)
  | [], _ => []
  | p :: rest, cur =>
    if p = Pos.EOS then cur :: splitAux rest [] else splitAux rest (cur ++ [p])

/-- Source `MarkovGenerator._split_sentences` (the `sentence_structures`). -/
def splitSentences (skeleton : List Pos) : List (List Pos) := splitAux skeleton []

/-- Source `MarkovGenerator._sort_subjects`: stable bucketing by the priority
list; subjects whose POS is not listed are dropped. -/
def sortSubjects (prio : List Pos) (subjects : List MarkovWord) : List MarkovWord :=
  prio.flatMap (fun p => subjects.filter (fun s => s.pos = p))

/-- The inner subject loop of `_assign_subjects`: the first subject (in sorted
order) whose POS matches the slot. -/
def placeFirst (subjects : List MarkovWord) (pos : Pos) : Option MarkovWord :=
  subjects.find? (fun s => s.pos = pos)

/-- Source `_assign_subjects`, one sentence: each slot receives the first
matching subject (the `break` leaves the subject loop only, so every matching
slot is filled); the flag is `True` as soon as some slot was assigned, and
stays `None` otherwise. -/
def assignSentence (subjects : List MarkovWord) (sent : List Pos) :
    List (Option MarkovWord) × Option Bool :=
  let slots := sent.map (fun pos => placeFirst subjects pos)
  (slots, if slots.any (fun s => s.isSome) then some true else none)

/-- Source `_assign_subjects` over all sentences: the board and the
`sentences_assigned` flags. -/
def assignSubjects (structs : List (List Pos)) (subjects : List MarkovWord) :
    Board × List (Option Bool) :=
  ((structs.map (assignSentence subjects)).map (fun r => r.1),
    (structs.map (assignSentence subjects)).map (fun r => r.2))

/-- The post-check of `_assign_subjects`: fails only on a literal `False`
flag (which is never written; the flags are `None` or `True`). -/
def assignCheck (flags : List (Option Bool)) : Bool :=
  flags.all (fun f => f ≠ some false)

/-- Source `MarkovGenerator._work_remaining`: the number of blank slots. -/
def workRemaining (board : Board) : Nat :=
  (board.map (fun sentence => sentence.countP (fun w => w.isNone))).sum

/-- One sweep scan of `_generate_words`: walk the (index, slot) pairs,
recording each blank index; on meeting a filled slot within window `k` of the
recorded blank, stop with that single anchor index. -/
def sweepScan (k : Nat) : List (Nat × Option MarkovWord) → Option Nat →
    Option Nat × List Nat
  | [], blank => (blank, [])
  | (idx, none) :: rest, _ => sweepScan k rest (some idx)
  | (idx, some _) :: rest, blank =>
    match blank with
    | some bi =>
      if ((bi : ℤ) - (idx : ℤ)).natAbs ≤ k then (some bi, [idx])
      else sweepScan k rest blank
    | none => sweepScan k rest none

/-- Source `MarkovWordProjectionCollection._concat_collection`: row-stack of
the matrices, concatenation of the key/POS lists. -/
def concatProjections (ps : List MarkovWordProjection) : MarkovWordProjection :=
  { magnitudes := ps.flatMap (fun p => p.magnitudes)
    distances := ps.flatMap (fun p => p.distances)
    keys := ps.flatMap (fun p => p.keys)
    pos := ps.flatMap (fun p => p.pos) }

/-- Column sums of a dense matrix (`np.sum(..., axis=0)`). -/
def colSums : List (List ℚ) → List ℚ
  | [] => []
  | r :: rs => rs.foldl (fun acc row => List.zipWith (fun a b => a + b) acc row) r

/-- Source `MarkovWordProjectionCollection.probability_matrix`:
`(D ⊙ M) / colsum(D ⊙ M)`. Columns with zero sum are `NaN` in numpy; in `ℚ`
division by zero gives `0`. The exception-aware model (`handleProjectionsE`
below) therefore checks sampler validity on the pre-division column, where
the two readings agree. -/
def probabilityMatrix (coll : MarkovWordProjection) : List (List ℚ) :=
  let dm := List.zipWith (fun row m => row.map (fun x => x * m))
    coll.distances coll.magnitudes
  let sums := colSums dm
  dm.map (fun row => List.zipWith (fun x s => x / s) row sums)

/-- Source `handle_projections` closure of `_generate_words`, total
over-approximation: the RNG is an injected dependency (spec §5) — `stream t`
is the `t`-th draw of `np.random.choice`, reduced mod the number of
candidates so that it is a valid index — and the draw always succeeds. The
source sampler can also raise on an invalid probability vector;
`handleProjectionsE` below models that path, and the claims that quantify
over every behavior of this total model (conditional safety) remain sound
because every non-raising source execution is a `stream` instance. -/
def handleProjections (k : Nat) (wc wr : ℚ) (stream : Nat → Nat) (db : TrieNode)
    (structs : List (List Pos)) (sIdx : Nat) (st : Board × Nat)
    (blank : Option Nat) (anchors : List Nat) : Board × Nat :=
  match blank with
  | none => st
  | some blankIdx =>
    if anchors.isEmpty then st
    else
      let board := st.1
      let t := st.2
      let sentence := board.getD sIdx []
      let L := sentence.length
      let blankPos := (structs.getD sIdx []).getD blankIdx Pos.OTHER
      let projections := anchors.filterMap (fun wi =>
        (sentence.getD wi none).map (fun w => project k wc wr w wi L blankPos))
      let coll := concatProjections projections
      if coll.keys.length = 0 then st
      else
        let _pvals := (probabilityMatrix coll).map (fun row => row.getD blankIdx 0)
        let idx := stream t % coll.keys.length
        let key := coll.keys.getD idx ""
        let word := markovSelect db key
        (board.set sIdx (sentence.set blankIdx word), t + 1)

/-- The per-sentence body of `_generate_words`: the two sweeps (the second
walks the reversed sentence) with a `handle_projections` call after each. -/
def fillSentence (k : Nat) (wc wr : ℚ) (stream : Nat → Nat) (db : TrieNode)
    (structs : List (List Pos)) (st : Board × Nat) (sIdx : Nat) : Board × Nat :=
  let r1 := sweepScan k (st.1.getD sIdx []).enum none
  let st1 := handleProjections k wc wr stream db structs sIdx st r1.1 r1.2
  let r2 := sweepScan k (st1.1.getD sIdx []).enum.reverse none
  handleProjections k wc wr stream db structs sIdx st1 r2.1 r2.2

/-- One outer iteration of `_generate_words`: both sweeps for every sentence,
in sentence order. -/
def fillPass (k : Nat) (wc wr : ℚ) (stream : Nat → Nat) (db : TrieNode)
    (structs : List (List Pos)) (st : Board × Nat) : Board × Nat :=
  (List.range st.1.length).foldl (fillSentence k wc wr stream db structs) st

/-- The `while True` loop of `_generate_words`, with the iteration count made
explicit as structural fuel; `oldWork` is `old_work_left`. Fuel `W₀ + 1`
(used by `genWords`) is proven sufficient: the loop returns a verdict
unchanged by any additional fuel (claim C4). -/
def genLoopFuel (k : Nat) (wc wr : ℚ) (stream : Nat → Nat) (db : TrieNode)
    (structs : List (List Pos)) : Nat → Board × Nat → Nat → Option Board
  | 0, _, _ => none
  | fuel + 1, st, oldWork =>
    if oldWork = workRemaining (fillPass k wc wr stream db structs st).1 then none
    else if workRemaining (fillPass k wc wr stream db structs st).1 = 0 then
      some (fillPass k wc wr stream db structs st).1
    else genLoopFuel k wc wr stream db structs fuel
      (fillPass k wc wr stream db structs st)
      (workRemaining (fillPass k wc wr stream db structs st).1)

/-- Source `MarkovGenerator._generate_words` (returning the final board in
place of `True`, and `none` in place of `False`). -/
def genWords (k : Nat) (wc wr : ℚ) (stream : Nat → Nat) (db : TrieNode)
    (structs : List (List Pos)) (board : Board) : Option Board :=
  genLoopFuel k wc wr stream db structs (workRemaining board + 1) (board, 0)
    (workRemaining board)

/-- Source `MarkovGenerator.generate`: split, sort, assign, fill. -/
def generate (k : Nat) (wc wr : ℚ) (prio : List Pos) (stream : Nat → Nat)
    (db : TrieNode) (skeleton : List Pos) (subjects : List MarkovWord) :
    Option Board :=
  let structs := splitSentences skeleton
  let asg := assignSubjects structs (sortSubjects prio subjects)
  if assignCheck asg.2 then genWords k wc wr stream db structs asg.1
  else none

lemma splitAux_no_eos : ∀ (l cur : List Pos), Pos.EOS ∉ l → splitAux l cur = []
  | [], _, _ => rfl
  | p :: rest, cur, h => by
    rw [splitAux, if_neg (fun hp => h (show Pos.EOS ∈ p :: rest by
      rw [← hp]; exact List.mem_cons_self p rest))]
    exact splitAux_no_eos rest _ (fun hr => h (List.mem_cons_of_mem p hr))

/-- C10: a non-empty skeleton containing no `EOS` produces zero sentences
(the whole skeleton is the discarded trailing segment), and `generate`
returns `none` for every store, subject list, configuration and RNG stream:
the first fill iteration reports no progress on the empty board. -/
theorem C10_no_eos_returns_none (k : Nat) (wc wr : ℚ) (prio : List Pos)
    (stream : Nat → Nat) (db : TrieNode) (skeleton : List Pos)
    (subjects : List MarkovWord) (_hne : skeleton ≠ [])
    (heos : Pos.EOS ∉ skeleton) :
    splitSentences skeleton = [] ∧
    generate k wc wr prio stream db skeleton subjects = none := by
  have hs : splitSentences skeleton = [] := splitAux_no_eos skeleton [] heos
  refine ⟨hs, ?_⟩
  unfold generate
  rw [hs]
  rfl

/-- Witness for C10 at a concrete two-slot skeleton. -/
theorem C10_witness :
    ([Pos.NOUN, Pos.VERB] ≠ ([] : List Pos) ∧ Pos.EOS ∉ [Pos.NOUN, Pos.VERB]) ∧
    (splitSentences [Pos.NOUN, Pos.VERB] = [] ∧
      generate 8 1 1 MARKOV_GENERATE_SUBJECT_POS_PRIORITY (fun _ => 0)
        emptyTrie [Pos.NOUN, Pos.VERB] [⟨"cat", .NOUN, []⟩] = none) :=
  ⟨⟨by decide, by decide⟩,
    C10_no_eos_returns_none 8 1 1 MARKOV_GENERATE_SUBJECT_POS_PRIORITY
      (fun _ => 0) emptyTrie [Pos.NOUN, Pos.VERB] [⟨"cat", .NOUN, []⟩]
      (by decide) (by decide)⟩

/-- C6, counterexample: the claim says a subject is placed into at most one
sentence and at most one slot; but `_assign_subjects` never marks subjects as
consumed (its `break` leaves only the inner subject loop), so a single NOUN
subject fills the NOUN slot of both sentences of `[NOUN, EOS, NOUN, EOS]`,
and both NOUN slots of the single sentence of `[NOUN, NOUN, EOS]`. -/
theorem C6_counterexample :
    (assignSubjects (splitSentences [.NOUN, .EOS, .NOUN, .EOS])
        (sortSubjects MARKOV_GENERATE_SUBJECT_POS_PRIORITY
          [⟨"cat", .NOUN, []⟩])).1
      = [[some ⟨"cat", .NOUN, []⟩], [some ⟨"cat", .NOUN, []⟩]] ∧
    (assignSubjects (splitSentences [.NOUN, .NOUN, .EOS])
        (sortSubjects MARKOV_GENERATE_SUBJECT_POS_PRIORITY
          [⟨"cat", .NOUN, []⟩])).1
      = [[some ⟨"cat", .NOUN, []⟩, some ⟨"cat", .NOUN, []⟩]] := by
  constructor <;> rfl

/-- C6 (amended): subjects are not consumed during assignment. Every slot of
every sentence independently receives the first subject, in priority-sorted
order, whose POS matches the slot's POS (or stays blank); thus one subject
may occupy many slots across many sentences. -/
theorem C6_amended (prio : List Pos) (skeleton : List Pos)
    (subjects : List MarkovWord) (s i : Nat)
    (hs : s < (splitSentences skeleton).length)
    (hi : i < ((splitSentences skeleton).getD s []).length) :
    (((assignSubjects (splitSentences skeleton)
          (sortSubjects prio subjects)).1.getD s []).getD i none)
      = (sortSubjects prio subjects).find?
          (fun w => w.pos = ((splitSentences skeleton).getD s []).getD i default) := by
  have h1 : (assignSubjects (splitSentences skeleton)
        (sortSubjects prio subjects)).1
      = (splitSentences skeleton).map
          (fun sent => (assignSentence (sortSubjects prio subjects) sent).1) := by
    unfold assignSubjects
    simp [List.map_map, Function.comp]
  rw [h1, getD_map _ [] ([] : List Pos) _ s hs]
  unfold assignSentence
  simp only []
  rw [getD_map _ none (default : Pos) _ i hi]
  rfl

/-- Witness for C6 (amended): the first NOUN slot of the first sentence. -/
theorem C6_witness :
    (0 < (splitSentences [Pos.NOUN, Pos.EOS]).length ∧
      0 < ((splitSentences [Pos.NOUN, Pos.EOS]).getD 0 []).length) ∧
    (((assignSubjects (splitSentences [Pos.NOUN, Pos.EOS])
          (sortSubjects MARKOV_GENERATE_SUBJECT_POS_PRIORITY
            [⟨"cat", .NOUN, []⟩])).1.getD 0 []).getD 0 none)
      = (sortSubjects MARKOV_GENERATE_SUBJECT_POS_PRIORITY
          [⟨"cat", .NOUN, []⟩]).find?
          (fun w => w.pos
            = ((splitSentences [Pos.NOUN, Pos.EOS]).getD 0 []).getD 0 default) :=
  ⟨⟨by decide, by decide⟩,
    C6_amended MARKOV_GENERATE_SUBJECT_POS_PRIORITY [Pos.NOUN, Pos.EOS]
      [⟨"cat", .NOUN, []⟩] 0 0 (by decide) (by decide)⟩

lemma mem_enumFrom_getD {α : Type} (d : α) :
    ∀ (l : List α) (n i : Nat) (x : α), (i, x) ∈ List.enumFrom n l →
      n ≤ i ∧ i - n < l.length ∧ l.getD (i - n) d = x
  | [], _, _, _, h => absurd h (by simp)
  | y :: l, n, i, x, h => by
    rw [List.enumFrom] at h
    rcases List.mem_cons.mp h with heq | htail
    · injection heq with h1 h2
      subst h1
      subst h2
      exact ⟨le_refl _, by simp, by simp⟩
    · obtain ⟨hn, hlen, hget⟩ := mem_enumFrom_getD d l (n + 1) i x htail
      refine ⟨by omega, by simp; omega, ?_⟩
      have hin : i - n = (i - (n + 1)) + 1 := by omega
      rw [hin, List.getD_cons_succ]
      exact hget

lemma mem_enum_getD {α : Type} (d : α) (l : List α) (i : Nat) (x : α)
    (h : (i, x) ∈ l.enum) : i < l.length ∧ l.getD i d = x := by
  obtain ⟨_, hlen, hget⟩ := mem_enumFrom_getD d l 0 i x h
  rw [Nat.sub_zero] at hlen hget
  exact ⟨hlen, hget⟩

lemma sweepScan_blank {k : Nat} :
    ∀ (l : List (Nat × Option MarkovWord)) (b0 : Option Nat) (bi : Nat)
      (anchors : List Nat), sweepScan k l b0 = (some bi, anchors) →
      (bi, (none : Option MarkovWord)) ∈ l ∨ b0 = some bi
  | [], b0, bi, anchors, h => by
    simp only [sweepScan] at h
    injection h with h1 _
    exact Or.inr h1
  | (idx, none) :: rest, b0, bi, anchors, h => by
    simp only [sweepScan] at h
    rcases sweepScan_blank rest (some idx) bi anchors h with hmem | heq
    · exact Or.inl (List.mem_cons_of_mem _ hmem)
    · injection heq with heq
      subst heq
      exact Or.inl (List.mem_cons_self _ _)
  | (idx, some w) :: rest, b0, bi, anchors, h => by
    simp only [sweepScan] at h
    cases b0 with
    | none =>
      simp only [] at h
      rcases sweepScan_blank rest none bi anchors h with hmem | heq
      · exact Or.inl (List.mem_cons_of_mem _ hmem)
      · exact absurd heq (by simp)
    | some b =>
      simp only [] at h
      by_cases hw : ((b : ℤ) - (idx : ℤ)).natAbs ≤ k
      · rw [if_pos hw] at h
        injection h with h1 _
        exact Or.inr h1
      · rw [if_neg hw] at h
        rcases sweepScan_blank rest (some b) bi anchors h with hmem | heq
        · exact Or.inl (List.mem_cons_of_mem _ hmem)
        · exact Or.inr heq

lemma sweepScan_anchor {k : Nat} :
    ∀ (l : List (Nat × Option MarkovWord)) (b0 : Option Nat),
      (sweepScan k l b0).2 = [] ∨
      ∃ ai w, (sweepScan k l b0).2 = [ai] ∧ (ai, some w) ∈ l
  | [], b0 => by rw [sweepScan]; exact Or.inl rfl
  | (idx, none) :: rest, b0 => by
    simp only [sweepScan]
    rcases sweepScan_anchor rest (some idx) with he | ⟨ai, w, h1, h2⟩
    · exact Or.inl he
    · exact Or.inr ⟨ai, w, h1, List.mem_cons_of_mem _ h2⟩
  | (idx, some w) :: rest, b0 => by
    simp only [sweepScan]
    cases b0 with
    | none =>
      simp only []
      rcases sweepScan_anchor rest (none : Option Nat) with he | ⟨ai, w', h1, h2⟩
      · exact Or.inl he
      · exact Or.inr ⟨ai, w', h1, List.mem_cons_of_mem _ h2⟩
    | some b =>
      simp only []
      by_cases hw : ((b : ℤ) - (idx : ℤ)).natAbs ≤ k
      · rw [if_pos hw]
        exact Or.inr ⟨idx, w, rfl, List.mem_cons_self _ _⟩
      · rw [if_neg hw]
        rcases sweepScan_anchor rest (some b) with he | ⟨ai, w', h1, h2⟩
        · exact Or.inl he
        · exact Or.inr ⟨ai, w', h1, List.mem_cons_of_mem _ h2⟩

lemma sweepScan_all_blank {k : Nat} :
    ∀ (l : List (Nat × Option MarkovWord)) (b0 : Option Nat),
      (∀ p ∈ l, p.2 = (none : Option MarkovWord)) →
      (sweepScan k l b0).2 = []
  | [], b0, _ => by simp only [sweepScan]
  | (idx, none) :: rest, b0, h => by
    simp only [sweepScan]
    exact sweepScan_all_blank rest (some idx)
      (fun p hp => h p (List.mem_cons_of_mem _ hp))
  | (idx, some w) :: rest, b0, h => by
    exact absurd (h (idx, some w) (List.mem_cons_self _ _)) (by simp)

lemma handleProjections_spec (k : Nat) (wc wr : ℚ) (stream : Nat → Nat)
    (db : TrieNode) (structs : List (List Pos)) (sIdx : Nat) (st : Board × Nat)
    (blank : Option Nat) (anchors : List Nat) :
    handleProjections k wc wr stream db structs sIdx st blank anchors = st ∨
    ∃ bi key,
      blank = some bi ∧
      key ∈ (concatProjections (anchors.filterMap (fun wi =>
        ((st.1.getD sIdx []).getD wi none).map
          (fun w => project k wc wr w wi (st.1.getD sIdx []).length
            ((structs.getD sIdx []).getD bi Pos.OTHER))))).keys ∧
      handleProjections k wc wr stream db structs sIdx st blank anchors
        = (st.1.set sIdx ((st.1.getD sIdx []).set bi (markovSelect db key)),
            st.2 + 1) := by
  cases blank with
  | none => exact Or.inl rfl
  | some bi =>
    unfold handleProjections
    simp only []
    by_cases he : anchors.isEmpty
    · rw [if_pos he]
      exact Or.inl rfl
    · rw [if_neg he]
      by_cases hz : (concatProjections (anchors.filterMap (fun wi =>
          ((st.1.getD sIdx []).getD wi none).map
            (fun w => project k wc wr w wi (st.1.getD sIdx []).length
              ((structs.getD sIdx []).getD bi Pos.OTHER))))).keys.length = 0
      · rw [if_pos hz]
        exact Or.inl rfl
      · rw [if_neg hz]
        refine Or.inr ⟨bi, _, rfl, ?_, rfl⟩
        exact getD_mem "" _ _ (Nat.mod_lt _ (Nat.pos_of_ne_zero hz))

lemma countP_isNone_set_le :
    ∀ (l : List (Option MarkovWord)) (i : Nat) (v : Option MarkovWord),
      l.getD i none = none →
      (l.set i v).countP (fun w => w.isNone) ≤ l.countP (fun w => w.isNone)
  | [], _, _, _ => le_refl _
  | x :: l, 0, v, h => by
    rw [List.getD_cons_zero] at h
    subst h
    rw [List.set_cons_zero, List.countP_cons, List.countP_cons]
    simp only [Option.isNone_none]
    cases v <;> simp
  | x :: l, i + 1, v, h => by
    rw [List.getD_cons_succ] at h
    rw [List.set_cons_succ, List.countP_cons, List.countP_cons]
    exact Nat.add_le_add_right (countP_isNone_set_le l i v h) _

lemma workRemaining_set_le :
    ∀ (board : Board) (sIdx : Nat) (sent' : List (Option MarkovWord)),
      sent'.countP (fun w => w.isNone)
        ≤ (board.getD sIdx []).countP (fun w => w.isNone) →
      workRemaining (board.set sIdx sent') ≤ workRemaining board
  | [], _, _, _ => le_refl _
  | b :: board, 0, sent', h => by
    rw [List.getD_cons_zero] at h
    unfold workRemaining
    rw [List.set_cons_zero, List.map_cons, List.map_cons, List.sum_cons,
      List.sum_cons]
    exact Nat.add_le_add_right h _
  | b :: board, sIdx + 1, sent', h => by
    rw [List.getD_cons_succ] at h
    unfold workRemaining
    rw [List.set_cons_succ, List.map_cons, List.map_cons, List.sum_cons,
      List.sum_cons]
    exact Nat.add_le_add_left (workRemaining_set_le board sIdx sent' h) _

lemma workRemaining_ge_sentence (board : Board) (i : Nat) (hi : i < board.length) :
    (board.getD i []).countP (fun w => w.isNone) ≤ workRemaining board := by
  unfold workRemaining
  have hmem : (board.getD i []).countP (fun w => w.isNone)
      ∈ board.map (fun sentence => sentence.countP (fun w => w.isNone)) := by
    rw [← getD_map (fun sentence => sentence.countP (fun w => w.isNone)) 0 [] board i hi]
    exact getD_mem 0 _ i (by simpa using hi)
  exact List.single_le_sum (fun x _ => Nat.zero_le x) _ hmem

lemma handleProjections_work_le (k : Nat) (wc wr : ℚ) (stream : Nat → Nat)
    (db : TrieNode) (structs : List (List Pos)) (sIdx : Nat) (st : Board × Nat)
    (blank : Option Nat) (anchors : List Nat)
    (hblank : ∀ bi, blank = some bi → (st.1.getD sIdx []).getD bi none = none) :
    workRemaining (handleProjections k wc wr stream db structs sIdx st blank
      anchors).1 ≤ workRemaining st.1 := by
  rcases handleProjections_spec k wc wr stream db structs sIdx st blank anchors with
    heq | ⟨bi, key, hbi, _, heq⟩
  · rw [heq]
  · rw [heq]
    exact workRemaining_set_le st.1 sIdx _
      (countP_isNone_set_le _ bi _ (hblank bi hbi))

lemma handleProjections_length (k : Nat) (wc wr : ℚ) (stream : Nat → Nat)
    (db : TrieNode) (structs : List (List Pos)) (sIdx : Nat) (st : Board × Nat)
    (blank : Option Nat) (anchors : List Nat) :
    (handleProjections k wc wr stream db structs sIdx st blank anchors).1.length
      = st.1.length := by
  rcases handleProjections_spec k wc wr stream db structs sIdx st blank anchors with
    heq | ⟨bi, key, _, _, heq⟩
  · rw [heq]
  · rw [heq]
    exact List.length_set _ _ _

lemma handleProjections_getD_ne (k : Nat) (wc wr : ℚ) (stream : Nat → Nat)
    (db : TrieNode) (structs : List (List Pos)) (sIdx : Nat) (st : Board × Nat)
    (blank : Option Nat) (anchors : List Nat) (i : Nat) (hne : sIdx ≠ i) :
    (handleProjections k wc wr stream db structs sIdx st blank anchors).1.getD i []
      = st.1.getD i [] := by
  rcases handleProjections_spec k wc wr stream db structs sIdx st blank anchors with
    heq | ⟨bi, key, _, _, heq⟩
  · rw [heq]
  · rw [heq]
    exact getD_set_ne _ _ _ _ _ hne

lemma sweepScan_enum_blank_slot (k : Nat) (l : List (Option MarkovWord))
    (bi : Nat) (hbi : (sweepScan k l.enum none).1 = some bi) :
    l.getD bi none = none := by
  have h : sweepScan k l.enum none
      = (some bi, (sweepScan k l.enum none).2) := by
    rw [← hbi]
  rcases sweepScan_blank l.enum none bi _ h with hmem | habs
  · exact (mem_enum_getD none l bi none hmem).2
  · exact absurd habs (by simp)

lemma sweepScan_enum_reverse_blank_slot (k : Nat) (l : List (Option MarkovWord))
    (bi : Nat) (hbi : (sweepScan k l.enum.reverse none).1 = some bi) :
    l.getD bi none = none := by
  have h : sweepScan k l.enum.reverse none
      = (some bi, (sweepScan k l.enum.reverse none).2) := by
    rw [← hbi]
  rcases sweepScan_blank l.enum.reverse none bi _ h with hmem | habs
  · exact (mem_enum_getD none l bi none (List.mem_reverse.mp hmem)).2
  · exact absurd habs (by simp)

lemma fillSentence_work_le (k : Nat) (wc wr : ℚ) (stream : Nat → Nat)
    (db : TrieNode) (structs : List (List Pos)) (st : Board × Nat) (sIdx : Nat) :
    workRemaining (fillSentence k wc wr stream db structs st sIdx).1
      ≤ workRemaining st.1 := by
  have h1 := handleProjections_work_le k wc wr stream db structs sIdx st
    (sweepScan k (st.1.getD sIdx []).enum none).1
    (sweepScan k (st.1.getD sIdx []).enum none).2
    (fun bi hbi => sweepScan_enum_blank_slot k _ bi hbi)
  have h2 := handleProjections_work_le k wc wr stream db structs sIdx
    (handleProjections k wc wr stream db structs sIdx st
      (sweepScan k (st.1.getD sIdx []).enum none).1
      (sweepScan k (st.1.getD sIdx []).enum none).2)
    (sweepScan k ((handleProjections k wc wr stream db structs sIdx st
      (sweepScan k (st.1.getD sIdx []).enum none).1
      (sweepScan k (st.1.getD sIdx []).enum none).2).1.getD sIdx []).enum.reverse
      none).1
    (sweepScan k ((handleProjections k wc wr stream db structs sIdx st
      (sweepScan k (st.1.getD sIdx []).enum none).1
      (sweepScan k (st.1.getD sIdx []).enum none).2).1.getD sIdx []).enum.reverse
      none).2
    (fun bi hbi => sweepScan_enum_reverse_blank_slot k _ bi hbi)
  exact le_trans h2 h1

lemma fillSentence_length (k : Nat) (wc wr : ℚ) (stream : Nat → Nat)
    (db : TrieNode) (structs : List (List Pos)) (st : Board × Nat) (sIdx : Nat) :
    (fillSentence k wc wr stream db structs st sIdx).1.length = st.1.length := by
  unfold fillSentence
  rw [handleProjections_length, handleProjections_length]

lemma fillSentence_getD_ne (k : Nat) (wc wr : ℚ) (stream : Nat → Nat)
    (db : TrieNode) (structs : List (List Pos)) (st : Board × Nat)
    (sIdx i : Nat) (hne : sIdx ≠ i) :
    (fillSentence k wc wr stream db structs st sIdx).1.getD i []
      = st.1.getD i [] := by
  unfold fillSentence
  rw [handleProjections_getD_ne _ _ _ _ _ _ _ _ _ _ _ hne,
    handleProjections_getD_ne _ _ _ _ _ _ _ _ _ _ _ hne]

lemma handleProjections_anchors_nil (k : Nat) (wc wr : ℚ) (stream : Nat → Nat)
    (db : TrieNode) (structs : List (List Pos)) (sIdx : Nat) (st : Board × Nat)
    (blank : Option Nat) :
    handleProjections k wc wr stream db structs sIdx st blank [] = st := by
  cases blank <;> rfl

lemma fillSentence_self_all_blank (k : Nat) (wc wr : ℚ) (stream : Nat → Nat)
    (db : TrieNode) (structs : List (List Pos)) (st : Board × Nat) (sIdx : Nat)
    (hall : ∀ w ∈ st.1.getD sIdx [], w = none) :
    fillSentence k wc wr stream db structs st sIdx = st := by
  have henum : ∀ p ∈ (st.1.getD sIdx []).enum, p.2 = (none : Option MarkovWord) := by
    intro p hp
    cases p with
    | mk i x =>
      obtain ⟨hi, hget⟩ := mem_enum_getD none _ i x hp
      exact hall x (hget ▸ getD_mem none _ i hi)
  have ha1 : (sweepScan k (st.1.getD sIdx []).enum none).2 = [] :=
    sweepScan_all_blank _ _ henum
  show handleProjections k wc wr stream db structs sIdx
      (handleProjections k wc wr stream db structs sIdx st
        (sweepScan k (st.1.getD sIdx []).enum none).1
        (sweepScan k (st.1.getD sIdx []).enum none).2)
      (sweepScan k ((handleProjections k wc wr stream db structs sIdx st
        (sweepScan k (st.1.getD sIdx []).enum none).1
        (sweepScan k (st.1.getD sIdx []).enum none).2).1.getD sIdx
          []).enum.reverse none).1
      (sweepScan k ((handleProjections k wc wr stream db structs sIdx st
        (sweepScan k (st.1.getD sIdx []).enum none).1
        (sweepScan k (st.1.getD sIdx []).enum none).2).1.getD sIdx
          []).enum.reverse none).2
      = st
  rw [ha1, handleProjections_anchors_nil]
  have henum2 : ∀ p ∈ (st.1.getD sIdx []).enum.reverse,
      p.2 = (none : Option MarkovWord) :=
    fun p hp => henum p (List.mem_reverse.mp hp)
  have ha2 : (sweepScan k (st.1.getD sIdx []).enum.reverse none).2 = [] :=
    sweepScan_all_blank _ _ henum2
  rw [ha2, handleProjections_anchors_nil]

lemma foldl_fillSentence_work_le (k : Nat) (wc wr : ℚ) (stream : Nat → Nat)
    (db : TrieNode) (structs : List (List Pos)) :
    ∀ (idxs : List Nat) (st : Board × Nat),
      workRemaining ((idxs.foldl (fillSentence k wc wr stream db structs) st).1)
        ≤ workRemaining st.1
  | [], st => le_refl _
  | j :: idxs, st => by
    rw [List.foldl_cons]
    exact le_trans
      (foldl_fillSentence_work_le k wc wr stream db structs idxs _)
      (fillSentence_work_le k wc wr stream db structs st j)

lemma fillPass_work_le (k : Nat) (wc wr : ℚ) (stream : Nat → Nat)
    (db : TrieNode) (structs : List (List Pos)) (st : Board × Nat) :
    workRemaining (fillPass k wc wr stream db structs st).1
      ≤ workRemaining st.1 :=
  foldl_fillSentence_work_le k wc wr stream db structs _ st

lemma foldl_fillSentence_length (k : Nat) (wc wr : ℚ) (stream : Nat → Nat)
    (db : TrieNode) (structs : List (List Pos)) :
    ∀ (idxs : List Nat) (st : Board × Nat),
      ((idxs.foldl (fillSentence k wc wr stream db structs) st).1).length
        = st.1.length
  | [], st => rfl
  | j :: idxs, st => by
    rw [List.foldl_cons,
      foldl_fillSentence_length k wc wr stream db structs idxs _,
      fillSentence_length]

lemma fillPass_length (k : Nat) (wc wr : ℚ) (stream : Nat → Nat)
    (db : TrieNode) (structs : List (List Pos)) (st : Board × Nat) :
    (fillPass k wc wr stream db structs st).1.length = st.1.length :=
  foldl_fillSentence_length k wc wr stream db structs _ st

lemma foldl_fillSentence_blank_getD (k : Nat) (wc wr : ℚ) (stream : Nat → Nat)
    (db : TrieNode) (structs : List (List Pos)) (i : Nat) :
    ∀ (idxs : List Nat) (st : Board × Nat),
      (∀ w ∈ st.1.getD i [], w = none) →
      ((idxs.foldl (fillSentence k wc wr stream db structs) st).1.getD i [])
        = st.1.getD i []
  | [], st, _ => rfl
  | j :: idxs, st, hall => by
    rw [List.foldl_cons]
    have hstep : (fillSentence k wc wr stream db structs st j).1.getD i []
        = st.1.getD i [] := by
      by_cases hji : j = i
      · subst hji
        rw [fillSentence_self_all_blank k wc wr stream db structs st j hall]
      · exact fillSentence_getD_ne k wc wr stream db structs st j i hji
    have hall' : ∀ w ∈ (fillSentence k wc wr stream db structs st j).1.getD i [],
        w = none := by
      rw [hstep]; exact hall
    rw [foldl_fillSentence_blank_getD k wc wr stream db structs i idxs _ hall',
      hstep]

lemma fillPass_blank_getD (k : Nat) (wc wr : ℚ) (stream : Nat → Nat)
    (db : TrieNode) (structs : List (List Pos)) (st : Board × Nat) (i : Nat)
    (hall : ∀ w ∈ st.1.getD i [], w = none) :
    (fillPass k wc wr stream db structs st).1.getD i [] = st.1.getD i [] :=
  foldl_fillSentence_blank_getD k wc wr stream db structs i _ st hall

lemma genLoopFuel_stable (k : Nat) (wc wr : ℚ) (stream : Nat → Nat)
    (db : TrieNode) (structs : List (List Pos)) :
    ∀ (w fuel1 fuel2 : Nat) (st : Board × Nat),
      workRemaining st.1 ≤ w → w < fuel1 → w < fuel2 →
      genLoopFuel k wc wr stream db structs fuel1 st w
        = genLoopFuel k wc wr stream db structs fuel2 st w := by
  intro w
  induction w using Nat.strong_induction_on with
  | _ w ih =>
    intro fuel1 fuel2 st hw h1 h2
    obtain ⟨f1, rfl⟩ : ∃ f, fuel1 = f + 1 := ⟨fuel1 - 1, by omega⟩
    obtain ⟨f2, rfl⟩ : ∃ f, fuel2 = f + 1 := ⟨fuel2 - 1, by omega⟩
    rw [genLoopFuel, genLoopFuel]
    by_cases he : w = workRemaining (fillPass k wc wr stream db structs st).1
    · rw [if_pos he, if_pos he]
    · rw [if_neg he, if_neg he]
      by_cases hz : workRemaining (fillPass k wc wr stream db structs st).1 = 0
      · rw [if_pos hz, if_pos hz]
      · rw [if_neg hz, if_neg hz]
        have hlt : workRemaining (fillPass k wc wr stream db structs st).1 < w :=
          lt_of_le_of_ne
            (le_trans (fillPass_work_le k wc wr stream db structs st) hw)
            (fun e => he e.symm)
        exact ih _ hlt f1 f2 _ (le_refl _) (by omega) (by omega)

lemma genLoopFuel_none_blank (k : Nat) (wc wr : ℚ) (stream : Nat → Nat)
    (db : TrieNode) (structs : List (List Pos)) :
    ∀ (fuel : Nat) (st : Board × Nat) (w i : Nat),
      i < st.1.length → st.1.getD i [] ≠ [] →
      (∀ x ∈ st.1.getD i [], x = none) →
      genLoopFuel k wc wr stream db structs fuel st w = none
  | 0, _, _, _, _, _, _ => rfl
  | fuel + 1, st, w, i, hi, hne, hall => by
    rw [genLoopFuel]
    have hgd : (fillPass k wc wr stream db structs st).1.getD i []
        = st.1.getD i [] := fillPass_blank_getD k wc wr stream db structs st i hall
    have hlen : (fillPass k wc wr stream db structs st).1.length = st.1.length :=
      fillPass_length k wc wr stream db structs st
    have hcnt : (st.1.getD i []).countP (fun w => w.isNone)
        = (st.1.getD i []).length :=
      List.countP_eq_length.mpr (fun x hx => by rw [hall x hx]; rfl)
    have hpos : 0 < (st.1.getD i []).length := List.length_pos.mpr hne
    have hge : 0 < workRemaining (fillPass k wc wr stream db structs st).1 := by
      have hws := workRemaining_ge_sentence
        (fillPass k wc wr stream db structs st).1 i (by rw [hlen]; exact hi)
      rw [hgd, hcnt] at hws
      omega
    by_cases he : w = workRemaining (fillPass k wc wr stream db structs st).1
    · rw [if_pos he]
    · rw [if_neg he, if_neg (by omega)]
      exact genLoopFuel_none_blank k wc wr stream db structs fuel _ _ i
        (by rw [hlen]; exact hi) (by rw [hgd]; exact hne)
        (by rw [hgd]; exact hall)

lemma assignSubjects_fst (structs : List (List Pos)) (subj : List MarkovWord) :
    (assignSubjects structs subj).1
      = structs.map (fun sent => (assignSentence subj sent).1) := by
  unfold assignSubjects
  simp [List.map_map, Function.comp]

lemma assignSubjects_snd (structs : List (List Pos)) (subj : List MarkovWord) :
    (assignSubjects structs subj).2
      = structs.map (fun sent => (assignSentence subj sent).2) := by
  unfold assignSubjects
  simp [List.map_map, Function.comp]

lemma assignSentence_flag (subj : List MarkovWord) (sent : List Pos) :
    (assignSentence subj sent).2 = none ∨ (assignSentence subj sent).2 = some true := by
  unfold assignSentence
  simp only []
  split
  · exact Or.inr rfl
  · exact Or.inl rfl

lemma assignCheck_assign (structs : List (List Pos)) (subj : List MarkovWord) :
    assignCheck (assignSubjects structs subj).2 = true := by
  rw [assignSubjects_snd, assignCheck, List.all_eq_true]
  intro f hf
  obtain ⟨sent, _, rfl⟩ := List.mem_map.mp hf
  rcases assignSentence_flag subj sent with h | h <;> rw [h] <;> simp

lemma assignSentence_flag_none (subj : List MarkovWord) (sent : List Pos)
    (h : (assignSentence subj sent).2 = none) :
    ∀ x ∈ (assignSentence subj sent).1, x = none := by
  unfold assignSentence at h ⊢
  simp only [] at h ⊢
  intro x hx
  cases x with
  | none => rfl
  | some w =>
    exfalso
    have hany : (sent.map (fun pos => placeFirst subj pos)).any
        (fun s => s.isSome) = true :=
      List.any_eq_true.mpr ⟨some w, hx, rfl⟩
    rw [if_pos hany] at h
    exact absurd h (by simp)

/-- The single subject of the C1 counterexample: `cat`, with a VERB neighbor
`sat` one step to the right (`K = 8`: histogram index `9`). -/
def c1subject : MarkovWord :=
  ⟨"cat", .NOUN, [("sat", ⟨.VERB, ⟨1, 0⟩,
    [0, 0, 0, 0, 0, 0, 0, 0, 0, 1, 0, 0, 0, 0, 0, 0, 0]⟩)]⟩

/-- The stored word `sat`. -/
def c1sat : MarkovWord := ⟨"sat", .VERB, []⟩

/-- A store containing `cat` (with neighbor `sat`) and `sat`. -/
def c1db : TrieNode := (markovInsert (markovInsert emptyTrie c1subject).1 c1sat).1

lemma getD_set_full {α : Type} (v d : α) :
    ∀ (l : List α) (i j : Nat),
      (l.set i v).getD j d = if i = j ∧ i < l.length then v else l.getD j d
  | [], i, j => by
    rw [if_neg (fun h => absurd h.2 (by simp)), List.set_nil]
  | a :: l, 0, 0 => by
    rw [List.set_cons_zero, List.getD_cons_zero, List.getD_cons_zero,
      if_pos ⟨rfl, by simp⟩]
  | a :: l, 0, j + 1 => by
    rw [List.set_cons_zero, List.getD_cons_succ, List.getD_cons_succ,
      if_neg (by omega)]
  | a :: l, i + 1, 0 => by
    rw [List.set_cons_succ, List.getD_cons_zero, List.getD_cons_zero,
      if_neg (by omega)]
  | a :: l, i + 1, j + 1 => by
    rw [List.set_cons_succ, List.getD_cons_succ, List.getD_cons_succ,
      getD_set_full v d l i j]
    by_cases h : i = j ∧ i < l.length
    · rw [if_pos h, if_pos ⟨by omega, by simp only [List.length_cons]; omega⟩]
    · rw [if_neg h, if_neg (by simp only [List.length_cons]; omega)]

/-- Store/word POS consistency for one word: every neighbor row agrees with
the POS of the word the store returns for the row's key. The spec calls this
invariant "soft — not enforced at insert". -/
def ConsistentWord (db : TrieNode) (w : MarkovWord) : Prop :=
  ∀ e ∈ w.neighbors, ∀ w' : MarkovWord,
    markovSelect db e.1 = some w' → w'.pos = e.2.pos

/-- Store-wide POS consistency: every selectable word is consistent. -/
def ConsistentDb (db : TrieNode) : Prop :=
  ∀ (s : String) (w : MarkovWord), markovSelect db s = some w →
    ConsistentWord db w

/-- The generation-board invariant for C5: correct shape, and every filled
slot holds a store-consistent word whose POS matches the skeleton slot. -/
def BoardOk (db : TrieNode) (structs : List (List Pos)) (board : Board) : Prop :=
  board.length = structs.length ∧
  (∀ i, i < board.length →
    (board.getD i []).length = (structs.getD i []).length) ∧
  (∀ i j w, i < board.length → (board.getD i []).getD j none = some w →
    w.pos = (structs.getD i []).getD j Pos.OTHER ∧ ConsistentWord db w)

lemma mem_concatProjections_keys {ps : List MarkovWordProjection} {key : String}
    (h : key ∈ (concatProjections ps).keys) : ∃ p ∈ ps, key ∈ p.keys := by
  unfold concatProjections at h
  simp only [] at h
  exact List.mem_flatMap.mp h

lemma mem_project_keys {k : Nat} {wc wr : ℚ} {w : MarkovWord} {i L : Nat}
    {pos : Pos} {key : String} (h : key ∈ (project k wc wr w i L pos).keys) :
    ∃ e ∈ w.neighbors, e.1 = key ∧ e.2.pos = pos := by
  unfold project at h
  simp only [] at h
  obtain ⟨n, hn, hkey⟩ := List.mem_map.mp h
  unfold selectNeighbors at hn
  obtain ⟨e, he, hee⟩ := List.mem_filterMap.mp hn
  refine ⟨e, he, ?_, ?_⟩
  · split at hee
    · injection hee with hee
      rw [← hee] at hkey
      exact hkey
    · exact absurd hee (by simp)
  · split at hee
    next hp => exact hp
    next => exact absurd hee (by simp)

lemma sortSubjects_mem {prio : List Pos} {subjects : List MarkovWord}
    {w : MarkovWord} (h : w ∈ sortSubjects prio subjects) : w ∈ subjects := by
  unfold sortSubjects at h
  obtain ⟨p, _, hmem⟩ := List.mem_flatMap.mp h
  exact List.mem_of_mem_filter hmem

lemma getD_out_of_range {α : Type} (d : α) :
    ∀ (l : List α) (j : Nat), l.length ≤ j → l.getD j d = d
  | [], _, _ => rfl
  | a :: l, 0, h => absurd h (by simp)
  | a :: l, j + 1, h => by
    rw [List.getD_cons_succ]
    exact getD_out_of_range d l j (by simpa using h)

lemma handleProjections_boardOk (k : Nat) (wc wr : ℚ) (stream : Nat → Nat)
    (db : TrieNode) (structs : List (List Pos)) (sIdx : Nat) (st : Board × Nat)
    (blank : Option Nat) (anchors : List Nat) (Hdb : ConsistentDb db)
    (hok : BoardOk db structs st.1) :
    BoardOk db structs
      (handleProjections k wc wr stream db structs sIdx st blank anchors).1 := by
  rcases handleProjections_spec k wc wr stream db structs sIdx st blank anchors
    with heq | ⟨bi, key, hbi, hkey, heq⟩
  · rw [heq]; exact hok
  · rw [heq]
    obtain ⟨p, hp, hkeyp⟩ := mem_concatProjections_keys hkey
    obtain ⟨wi, hwi, hproj⟩ := List.mem_filterMap.mp hp
    cases hslot : (st.1.getD sIdx []).getD wi none with
    | none => rw [hslot] at hproj; exact absurd hproj (by simp)
    | some aw =>
      rw [hslot] at hproj
      simp only [Option.map_some', Option.some.injEq] at hproj
      rw [← hproj] at hkeyp
      obtain ⟨e, he, hek, hepos⟩ := mem_project_keys hkeyp
      have hsIdx : sIdx < st.1.length := by
        by_contra hge
        rw [getD_out_of_range [] st.1 sIdx (by omega)] at hslot
        exact absurd hslot (by simp)
      obtain ⟨hlen, hslen, hslots⟩ := hok
      obtain ⟨hawpos, hawcons⟩ := hslots sIdx wi aw hsIdx hslot
      refine ⟨by rw [List.length_set]; exact hlen, ?_, ?_⟩
      · intro i hi
        rw [List.length_set] at hi
        rw [getD_set_full]
        split
        next hc =>
          rw [List.length_set, ← hc.1]
          exact hslen sIdx hsIdx
        next => exact hslen i hi
      · intro i j w hi hw
        rw [List.length_set] at hi
        rw [getD_set_full] at hw
        split at hw
        next hc =>
          obtain ⟨hc1, _⟩ := hc
          subst hc1
          rw [getD_set_full] at hw
          split at hw
          next hcj =>
            have hkpos := hawcons e he w (by rw [hek]; exact hw)
            rw [hepos] at hkpos
            exact ⟨by rw [← hcj.1]; exact hkpos, Hdb key w hw⟩
          next => exact hslots sIdx j w hsIdx hw
        next => exact hslots i j w hi hw

lemma fillSentence_boardOk (k : Nat) (wc wr : ℚ) (stream : Nat → Nat)
    (db : TrieNode) (structs : List (List Pos)) (st : Board × Nat) (sIdx : Nat)
    (Hdb : ConsistentDb db) (hok : BoardOk db structs st.1) :
    BoardOk db structs (fillSentence k wc wr stream db structs st sIdx).1 :=
  handleProjections_boardOk k wc wr stream db structs sIdx
    (handleProjections k wc wr stream db structs sIdx st
      (sweepScan k (st.1.getD sIdx []).enum none).1
      (sweepScan k (st.1.getD sIdx []).enum none).2) _ _ Hdb
    (handleProjections_boardOk k wc wr stream db structs sIdx st _ _ Hdb hok)

lemma foldl_fillSentence_boardOk (k : Nat) (wc wr : ℚ) (stream : Nat → Nat)
    (db : TrieNode) (structs : List (List Pos)) (Hdb : ConsistentDb db) :
    ∀ (idxs : List Nat) (st : Board × Nat), BoardOk db structs st.1 →
      BoardOk db structs
        ((idxs.foldl (fillSentence k wc wr stream db structs) st).1)
  | [], st, hok => hok
  | j :: idxs, st, hok => by
    rw [List.foldl_cons]
    exact foldl_fillSentence_boardOk k wc wr stream db structs Hdb idxs _
      (fillSentence_boardOk k wc wr stream db structs st j Hdb hok)

lemma fillPass_boardOk (k : Nat) (wc wr : ℚ) (stream : Nat → Nat)
    (db : TrieNode) (structs : List (List Pos)) (st : Board × Nat)
    (Hdb : ConsistentDb db) (hok : BoardOk db structs st.1) :
    BoardOk db structs (fillPass k wc wr stream db structs st).1 :=
  foldl_fillSentence_boardOk k wc wr stream db structs Hdb _ st hok

lemma genLoopFuel_some_boardOk (k : Nat) (wc wr : ℚ) (stream : Nat → Nat)
    (db : TrieNode) (structs : List (List Pos)) (Hdb : ConsistentDb db) :
    ∀ (fuel : Nat) (st : Board × Nat) (w : Nat) (board : Board),
      genLoopFuel k wc wr stream db structs fuel st w = some board →
      BoardOk db structs st.1 → BoardOk db structs board
  | 0, _, _, _, h, _ => absurd h (by simp [genLoopFuel])
  | fuel + 1, st, w, board, h, hok => by
    rw [genLoopFuel] at h
    split at h
    · exact absurd h (by simp)
    · split at h
      · injection h with h
        rw [← h]
        exact fillPass_boardOk k wc wr stream db structs st Hdb hok
      · exact genLoopFuel_some_boardOk k wc wr stream db structs Hdb fuel _ _
          board h (fillPass_boardOk k wc wr stream db structs st Hdb hok)

lemma assign_boardOk (db : TrieNode) (structs : List (List Pos))
    (sorted : List MarkovWord) (Hs : ∀ w ∈ sorted, ConsistentWord db w) :
    BoardOk db structs (assignSubjects structs sorted).1 := by
  rw [assignSubjects_fst]
  refine ⟨by simp, ?_, ?_⟩
  · intro i hi
    rw [List.length_map] at hi
    rw [getD_map _ [] ([] : List Pos) _ i hi]
    unfold assignSentence
    simp only []
    rw [List.length_map]
  · intro i j w hi hw
    rw [List.length_map] at hi
    rw [getD_map _ [] ([] : List Pos) _ i hi] at hw
    unfold assignSentence at hw
    simp only [] at hw
    have hj : j < (structs.getD i []).length := by
      by_contra hge
      rw [getD_out_of_range none _ j (by rw [List.length_map]; omega)] at hw
      exact absurd hw (by simp)
    rw [getD_map _ none (default : Pos) _ j hj] at hw
    unfold placeFirst at hw
    have hmem := List.mem_of_find?_eq_some hw
    have hpred := List.find?_some hw
    simp only [decide_eq_true_eq] at hpred
    exact ⟨hpred, Hs w hmem⟩

/-- C5 (amended): the claim as stated fails for inconsistent stores (see the
counterexample): `select_neighbors` filters on the POS recorded in the
*neighbor row*, but the word placed on the board is fetched from the store
by text and may carry a different POS. Under the (spec §3 "soft") invariant
that the store and subjects are POS-consistent — every neighbor row's POS
agrees with the POS of the word the store returns for that key — every word
of a non-null `generate` result has the POS of its skeleton slot. -/
theorem C5_amended (k : Nat) (wc wr : ℚ) (prio : List Pos) (stream : Nat → Nat)
    (db : TrieNode) (skeleton : List Pos) (subjects : List MarkovWord)
    (board : Board) (Hdb : ConsistentDb db)
    (Hsubj : ∀ subj ∈ subjects, ConsistentWord db subj)
    (hgen : generate k wc wr prio stream db skeleton subjects = some board) :
    board.length = (splitSentences skeleton).length ∧
    (∀ i j w, i < board.length →
      (board.getD i []).getD j none = some w →
      w.pos = ((splitSentences skeleton).getD i []).getD j Pos.OTHER) := by
  unfold generate at hgen
  rw [if_pos (assignCheck_assign _ _)] at hgen
  unfold genWords at hgen
  have hok0 : BoardOk db (splitSentences skeleton)
      (assignSubjects (splitSentences skeleton)
        (sortSubjects prio subjects)).1 :=
    assign_boardOk db _ _ (fun w hw => Hsubj w (sortSubjects_mem hw))
  have hokb := genLoopFuel_some_boardOk k wc wr stream db
    (splitSentences skeleton) Hdb _ _ _ board hgen hok0
  exact ⟨hokb.1, fun i j w hi hw => (hokb.2.2 i j w hi hw).1⟩

/-- Distance histogram for `K = 8` with one observation at offset `+1`
(index `9`). -/
def c5dist : List ℤ := [0, 0, 0, 0, 0, 0, 0, 0, 0, 1, 0, 0, 0, 0, 0, 0, 0]

/-- Subject word `a` whose neighbor row for `b` records POS `VERB`. -/
def c5a : MarkovWord := ⟨"a", .NOUN, [("b", ⟨.VERB, ⟨1, 0⟩, c5dist⟩)]⟩

/-- Stored word `b` with POS `NOUN` — inconsistent with the `VERB` recorded
in `a`'s neighbor row. -/
def c5b : MarkovWord := ⟨"b", .NOUN, []⟩

/-- An inconsistent store: `a`'s row calls `b` a VERB, the store calls it a
NOUN. -/
def c5db : TrieNode := (markovInsert (markovInsert emptyTrie c5a).1 c5b).1

/-- C5, counterexample: `select_neighbors` filters candidates by the POS
recorded in the neighbor *row*, but the word placed on the board is fetched
from the store by text; with the store above, the VERB slot of skeleton
`[NOUN, VERB, EOS]` receives the word `b` whose stored POS is `NOUN`, and
`generate` returns it non-null. -/
theorem C5_counterexample :
    generate 8 1 1 MARKOV_GENERATE_SUBJECT_POS_PRIORITY (fun _ => 0) c5db
        [.NOUN, .VERB, .EOS] [c5a]
      = some [[some c5a, some c5b]] ∧
    ((splitSentences [.NOUN, .VERB, .EOS]).getD 0 []).getD 1 Pos.OTHER
      = Pos.VERB ∧
    c5b.pos ≠ Pos.VERB := by
  refine ⟨rfl, rfl, by decide⟩

/-- Membership of a payload somewhere in the trie. -/
inductive PayloadIn (p : Payload) : TrieNode → Prop where
  | here (cs : List (Char × TrieNode)) : PayloadIn p (.node cs (some p))
  | child (cs : List (Char × TrieNode)) (pl : Option Payload) (c : Char)
      (t : TrieNode) (hct : (c, t) ∈ cs) (h : PayloadIn p t) :
      PayloadIn p (.node cs pl)

lemma trieWalk_payloadIn :
    ∀ (chars : List Char) (t n : TrieNode), trieWalk t chars = some n →
      ∀ p : Payload, PayloadIn p n → PayloadIn p t
  | [], t, n, h, p, hp => by
    rw [trieWalk] at h
    injection h with h
    exact h ▸ hp
  | c :: rest, t, n, h, p, hp => by
    cases t with
    | node cs pl =>
      rw [trieWalk] at h
      cases hfind : lookupChild cs c.toLower with
      | none => rw [hfind] at h; exact absurd h (by simp)
      | some child =>
        rw [hfind] at h
        exact PayloadIn.child cs pl c.toLower child (lookupChild_mem hfind)
          (trieWalk_payloadIn rest child n h p hp)

lemma markovSelect_payloadIn {t : TrieNode} {s : String} {w : MarkovWord}
    (h : markovSelect t s = some w) :
    ∃ p : Payload, PayloadIn p t ∧ w = wordOfPayload p := by
  unfold markovSelect at h
  split at h
  · exact absurd h (by simp)
  next n hsel =>
    split at h
    next p hp =>
      injection h with h
      refine ⟨p, ?_, h.symm⟩
      have hwalk := trieSelectNode_walk hsel
      refine trieWalk_payloadIn s.toList t n hwalk p ?_
      cases n with
      | node cs pl =>
        have hpl : pl = some p := by simpa [TrieNode.payload] using hp
        subst hpl
        exact PayloadIn.here cs
    next => exact absurd h (by simp)

/-- Stored word `b` of the consistent witness store: POS `VERB`, agreeing
with `a`'s neighbor row. -/
def c5wb : MarkovWord := ⟨"b", .VERB, []⟩

/-- A POS-consistent store holding `a` (NOUN, with VERB neighbor `b`) and
`b` (VERB). -/
def c5wdb : TrieNode :=
  .node
    [('a', .node [] (some ⟨"a", .NOUN, [("b", ⟨.VERB, ⟨1, 0⟩, c5dist⟩)]⟩)),
     ('b', .node [] (some ⟨"b", .VERB, []⟩))]
    none

lemma c5a_consistent : ConsistentWord c5wdb c5a := by
  intro e he w' hsel'
  have he' : e = ("b", (⟨.VERB, ⟨1, 0⟩, c5dist⟩ : NRow)) := by
    rcases List.mem_cons.mp he with h1 | h2
    · exact h1
    · exact absurd h2 (by simp)
  subst he'
  rw [show markovSelect c5wdb "b" = some ⟨"b", Pos.VERB, []⟩ from rfl] at hsel'
  injection hsel' with hw
  rw [← hw]

lemma c5wdb_consistent : ConsistentDb c5wdb := by
  intro s w hsel
  obtain ⟨p, hin, rfl⟩ := markovSelect_payloadIn hsel
  have hin' : PayloadIn p (TrieNode.node
      [('a', .node [] (some ⟨"a", .NOUN, [("b", ⟨.VERB, ⟨1, 0⟩, c5dist⟩)]⟩)),
       ('b', .node [] (some ⟨"b", .VERB, []⟩))] none) := hin
  have hp : p = ⟨"a", .NOUN, [("b", ⟨.VERB, ⟨1, 0⟩, c5dist⟩)]⟩ ∨
      p = ⟨"b", .VERB, []⟩ := by
    cases hin' with
    | child cs pl c t hct h =>
      rcases List.mem_cons.mp hct with h1 | h2
      · injection h1 with hc ht
        rw [ht] at h
        cases h with
        | here => exact Or.inl rfl
        | child _ _ _ _ hct2 _ => exact absurd hct2 (by simp)
      · rcases List.mem_cons.mp h2 with h3 | h4
        · injection h3 with hc ht
          rw [ht] at h
          cases h with
          | here => exact Or.inr rfl
          | child _ _ _ _ hct2 _ => exact absurd hct2 (by simp)
        · exact absurd h4 (by simp)
  rcases hp with rfl | rfl
  · exact c5a_consistent
  · intro e he
    exact absurd he (by simp [wordOfPayload])

lemma c5subj_consistent : ∀ subj ∈ [c5a], ConsistentWord c5wdb subj := by
  intro subj hs
  rcases List.mem_cons.mp hs with h1 | h2
  · rw [h1]; exact c5a_consistent
  · exact absurd h2 (by simp)

/-- Witness for C5 (amended): with the consistent store, `generate` on
`[NOUN, VERB, EOS]` with subject `a` yields `[[a, b]]` and every word's POS
matches its slot. -/
theorem C5_witness :
    (ConsistentDb c5wdb ∧
      (∀ subj ∈ [c5a], ConsistentWord c5wdb subj) ∧
      generate 8 1 1 MARKOV_GENERATE_SUBJECT_POS_PRIORITY (fun _ => 0) c5wdb
        [.NOUN, .VERB, .EOS] [c5a] = some [[some c5a, some c5wb]]) ∧
    ([[some c5a, some c5wb]] : Board).length
        = (splitSentences [.NOUN, .VERB, .EOS]).length ∧
    (∀ i j w, i < ([[some c5a, some c5wb]] : Board).length →
      (([[some c5a, some c5wb]] : Board).getD i []).getD j none = some w →
      w.pos = ((splitSentences [.NOUN, .VERB, .EOS]).getD i []).getD j
        Pos.OTHER) :=
  ⟨⟨c5wdb_consistent, c5subj_consistent, rfl⟩,
    C5_amended 8 1 1 MARKOV_GENERATE_SUBJECT_POS_PRIORITY (fun _ => 0) c5wdb
      [.NOUN, .VERB, .EOS] [c5a] [[some c5a, some c5wb]] c5wdb_consistent
      c5subj_consistent rfl⟩

/-- A JSON value, as produced by `json.loads` of a snapshot; integer numbers
suffice for everything the engine stores. -/
inductive Json where
  | num (z : ℤ)
  | str (s : String)
  | arr (l : List Json)
  | obj (l : List (String × Json))

/-- Snapshot encoding of one neighbor entry:
`<text>: [pos_code, [count, rating], dist]` (spec §6). -/
def encodeNRow (e : String × NRow) : String × Json :=
  (e.1, .arr [.num (posCode e.2.pos),
    .arr [.num e.2.values.count, .num e.2.values.rating],
    .arr (e.2.dist.map (fun z => .num z))])

/-- Snapshot encoding of the `'_W'` word payload: `{"_T": .., "_P": ..}`. -/
def encodeW (p : Payload) : Json :=
  .obj [("_T", .str p.text), ("_P", .num (posCode p.pos))]

/-- The `'_W'`/`'_N'` object entries of a node's payload. -/
def payloadEntries : Option Payload → List (String × Json)
  | none => []
  | some p => [("_W", encodeW p), ("_N", .obj (p.neighbors.map encodeNRow))]

mutual
/-- Snapshot encoding of a trie node, per the spec §6 schema: single-character
child keys plus the optional reserved keys `'_W'` and `'_N'`. -/
def encodeTrie : TrieNode → Json
  | .node cs pl => .obj (encodeChildren cs ++ payloadEntries pl)

/-- Snapshot encoding of the children list. -/
def encodeChildren : List (Char × TrieNode) → List (String × Json)
  | [] => []
  | (c, t) :: rest => (String.singleton c, encodeTrie t) :: encodeChildren rest
end

/-- Decoding of one JSON number. -/
def decodeNum : Json → Option ℤ
  | .num z => some z
  | _ => none

/-- Decoding of one neighbor entry. -/
def decodeNRow (e : String × Json) : Option (String × NRow) :=
  match e.2 with
  | .arr [.num pc, .arr [.num cnt, .num rat], .arr distJs] =>
    match posOfCode pc, distJs.mapM decodeNum with
    | some pos, some dist => some (e.1, ⟨pos, ⟨cnt, rat⟩, dist⟩)
    | _, _ => none
  | _ => none

/-- Decoding of the `'_W'` word payload. -/
def decodeW : Json → Option (String × Pos)
  | .obj [("_T", .str t), ("_P", .num pc)] =>
    match posOfCode pc with
    | some pos => some (t, pos)
    | none => none
  | _ => none

/-- Decoding of the optional payload from the reserved entries: both present
or both absent. -/
def decodePayload : Option Json → Option Json → Option (Option Payload)
  | none, none => some none
  | some jw, some jn =>
    match decodeW jw, jn with
    | some (t, pos), .obj entries =>
      match entries.mapM decodeNRow with
      | some nb => some (some ⟨t, pos, nb⟩)
      | none => none
    | _, _ => none
  | _, _ => none

mutual
/-- Decoding of a snapshot node: classify entries (reserved keys by name,
single-character keys as children, in order), then assemble. -/
def decodeTrie : Json → Option TrieNode
  | .obj entries =>
    match decodeEntries entries with
    | some (cs, w, n) =>
      match decodePayload w n with
      | some pl => some (.node cs pl)
      | none => none
    | none => none
  | _ => none

/-- Entry classification pass of `decodeTrie`. -/
def decodeEntries : List (String × Json) →
    Option (List (Char × TrieNode) × Option Json × Option Json)
  | [] => some ([], none, none)
  | (key, v) :: rest =>
    match decodeEntries rest with
    | none => none
    | some (cs, w, n) =>
      if key = "_W" then
        match w with
        | none => some (cs, some v, n)
        | some _ => none
      else if key = "_N" then
        match n with
        | none => some (cs, w, some v)
        | some _ => none
      else
        match key.toList with
        | [c] =>
          match decodeTrie v with
          | some t => some ((c, t) :: cs, w, n)
          | none => none
        | _ => none
end

/-- Modelled from the spec: `MarkovTrieDb.save` is
`deflate(utf8(compact_json(trie)))` (§6); `json` and `zlib` are external
lossless codecs, so the snapshot is modelled as the JSON value itself. -/
def trieSave (t : TrieNode) : Json := encodeTrie t

/-- Modelled from the spec: `MarkovTrieDb.load` reverses `save` and replaces
the whole trie. -/
def trieLoad (j : Json) : Option TrieNode := decodeTrie j

lemma posOfCode_posCode (p : Pos) : posOfCode (posCode p) = some p := by
  cases p <;> rfl

lemma mapM_decodeNum : ∀ l : List ℤ,
    (l.map (fun z => Json.num z)).mapM decodeNum = some l
  | [] => rfl
  | z :: l => by
    rw [List.map_cons, List.mapM_cons, mapM_decodeNum l]
    rfl

lemma decodeNRow_encodeNRow (e : String × NRow) :
    decodeNRow (encodeNRow e) = some e := by
  unfold encodeNRow decodeNRow
  simp only []
  rw [posOfCode_posCode, mapM_decodeNum]

lemma mapM_decodeNRow : ∀ l : List (String × NRow),
    (l.map encodeNRow).mapM decodeNRow = some l
  | [] => rfl
  | e :: l => by
    rw [List.map_cons, List.mapM_cons, decodeNRow_encodeNRow,
      mapM_decodeNRow l]
    rfl

/-- The `'_W'` entry of a payload, if any. -/
def wJson : Option Payload → Option Json
  | none => none
  | some p => some (encodeW p)

/-- The `'_N'` entry of a payload, if any. -/
def nJson : Option Payload → Option Json
  | none => none
  | some p => some (.obj (p.neighbors.map encodeNRow))

lemma decodeW_encodeW (p : Payload) : decodeW (encodeW p) = some (p.text, p.pos) := by
  have h1 : decodeW (encodeW p)
      = (match posOfCode (posCode p.pos) with
        | some pos => some (p.text, pos)
        | none => none) := rfl
  rw [h1, posOfCode_posCode]

lemma decodePayload_roundtrip : ∀ pl : Option Payload,
    decodePayload (wJson pl) (nJson pl) = some pl
  | none => rfl
  | some p => by
    have h1 : decodePayload (wJson (some p)) (nJson (some p))
        = (match decodeW (encodeW p),
              Json.obj (p.neighbors.map encodeNRow) with
          | some (t, pos), Json.obj entries =>
            (match entries.mapM decodeNRow with
            | some nb => some (some ⟨t, pos, nb⟩)
            | none => none)
          | _, _ => none) := rfl
    rw [h1, decodeW_encodeW]
    show (match (p.neighbors.map encodeNRow).mapM decodeNRow with
      | some nb => some (some (⟨p.text, p.pos, nb⟩ : Payload))
      | none => none) = some (some p)
    rw [mapM_decodeNRow]

lemma decodeEntries_payloadEntries : ∀ pl : Option Payload,
    decodeEntries (payloadEntries pl) = some ([], wJson pl, nJson pl)
  | none => rfl
  | some _ => rfl

lemma singleton_ne_reservedW (c : Char) : ¬ String.singleton c = "_W" := by
  intro h
  have h2 : (String.singleton c).length = "_W".length := congrArg String.length h
  rw [show (String.singleton c).length = 1 from rfl] at h2
  exact absurd h2 (by decide)

lemma singleton_ne_reservedN (c : Char) : ¬ String.singleton c = "_N" := by
  intro h
  have h2 : (String.singleton c).length = "_N".length := congrArg String.length h
  rw [show (String.singleton c).length = 1 from rfl] at h2
  exact absurd h2 (by decide)

mutual
theorem decodeTrie_encodeTrie : ∀ t : TrieNode, decodeTrie (encodeTrie t) = some t
  | .node cs pl => by
    rw [encodeTrie, decodeTrie, decodeEntries_encodeChildren cs pl]
    show (match decodePayload (wJson pl) (nJson pl) with
      | some pl2 => some (TrieNode.node cs pl2)
      | none => none) = some (TrieNode.node cs pl)
    rw [decodePayload_roundtrip pl]

theorem decodeEntries_encodeChildren :
    ∀ (cs : List (Char × TrieNode)) (pl : Option Payload),
      decodeEntries (encodeChildren cs ++ payloadEntries pl)
        = some (cs, wJson pl, nJson pl)
  | [], pl => by
    rw [encodeChildren, List.nil_append]
    exact decodeEntries_payloadEntries pl
  | (c, t) :: rest, pl => by
    rw [encodeChildren, List.cons_append, decodeEntries,
      decodeEntries_encodeChildren rest pl]
    show (if String.singleton c = "_W" then
        match wJson pl with
        | none => some (rest, some (encodeTrie t), nJson pl)
        | some _ => none
      else if String.singleton c = "_N" then
        match nJson pl with
        | none => some (rest, wJson pl, some (encodeTrie t))
        | some _ => none
      else
        match (String.singleton c).toList with
        | [c2] =>
          (match decodeTrie (encodeTrie t) with
          | some t2 => some ((c2, t2) :: rest, wJson pl, nJson pl)
          | none => none)
        | _ => none)
      = some ((c, t) :: rest, wJson pl, nJson pl)
    rw [if_neg (singleton_ne_reservedW c), if_neg (singleton_ne_reservedN c)]
    show (match decodeTrie (encodeTrie t) with
      | some t2 => some ((c, t2) :: rest, wJson pl, nJson pl)
      | none => none) = some ((c, t) :: rest, wJson pl, nJson pl)
    rw [decodeTrie_encodeTrie t]
end

/-- C8: the snapshot round-trip is lossless: for every trie state (in
particular any state reachable by training), `save` followed by `load`
yields a structurally equal trie, and `select` of any word afterwards yields
the identical word (same text, POS and neighbors). The `json`+`zlib` codec
pair of the source is modelled as the identity on the JSON tree (both are
lossless external codecs); the schema mapping itself is what is verified. -/
theorem C8_snapshot_roundtrip (t : TrieNode) :
    trieLoad (trieSave t) = some t ∧
    ∀ s : String,
      markovSelect ((trieLoad (trieSave t)).getD emptyTrie) s
        = markovSelect t s := by
  have h : trieLoad (trieSave t) = some t := decodeTrie_encodeTrie t
  exact ⟨h, fun s => by rw [h]; rfl⟩


/-- Outcome of `generate` with the sampler's failure path modelled:
`raised` is an uncaught exception escaping `generate` (raised by
`np.random.choice` on invalid probabilities), `result r` a normal return
(`result none` is the `null` return). -/
inductive GenOutcome where
  | raised
  | result (r : Option Board)
deriving DecidableEq, Repr

/-- Source `handle_projections` with the sampler's failure path restored.
`np.random.choice(choices, p=p_values)` validates `p_values`, the `blank_idx`
column of `(D ⊙ M) / colsum(D ⊙ M)`: when the column of `D ⊙ M` sums to
zero the division yields `NaN` entries, and when the quotient has a negative
entry the vector is no valid distribution; either way `choice` raises and
the exception propagates out of `generate` (modelled as `none`). Rational
division (`x / 0 = 0`) erases the `NaN`s, so validity is checked on the
pre-division column. On a valid vector the draw itself is the injected
stream, reduced mod the number of candidates (spec §5: the RNG is an
injected dependency). -/
def handleProjectionsE (k : Nat) (wc wr : ℚ) (stream : Nat → Nat)
    (db : TrieNode) (structs : List (List Pos)) (sIdx : Nat) (st : Board × Nat)
    (blank : Option Nat) (anchors : List Nat) : Option (Board × Nat) :=
  match blank with
  | none => some st
  | some blankIdx =>
    if anchors.isEmpty then some st
    else
      let board := st.1
      let t := st.2
      let sentence := board.getD sIdx []
      let L := sentence.length
      let blankPos := (structs.getD sIdx []).getD blankIdx Pos.OTHER
      let projections := anchors.filterMap (fun wi =>
        (sentence.getD wi none).map (fun w => project k wc wr w wi L blankPos))
      let coll := concatProjections projections
      if coll.keys.length = 0 then some st
      else
        let dmcol := (List.zipWith (fun row m => row.map (fun x => x * m))
          coll.distances coll.magnitudes).map (fun row => row.getD blankIdx 0)
        if dmcol.sum = 0 ∨ dmcol.any (fun x => x / dmcol.sum < 0) then none
        else
          let idx := stream t % coll.keys.length
          let key := coll.keys.getD idx ""
          let word := markovSelect db key
          some (board.set sIdx (sentence.set blankIdx word), t + 1)

/-- The per-sentence body of `_generate_words` with exception propagation. -/
def fillSentenceE (k : Nat) (wc wr : ℚ) (stream : Nat → Nat) (db : TrieNode)
    (structs : List (List Pos)) (st : Board × Nat) (sIdx : Nat) :
    Option (Board × Nat) :=
  match handleProjectionsE k wc wr stream db structs sIdx st
    (sweepScan k (st.1.getD sIdx []).enum none).1
    (sweepScan k (st.1.getD sIdx []).enum none).2 with
  | none => none
  | some st1 =>
    handleProjectionsE k wc wr stream db structs sIdx st1
      (sweepScan k (st1.1.getD sIdx []).enum.reverse none).1
      (sweepScan k (st1.1.getD sIdx []).enum.reverse none).2

/-- One outer iteration of `_generate_words` with exception propagation:
an exception thrown mid-pass aborts the pass. -/
def fillPassE (k : Nat) (wc wr : ℚ) (stream : Nat → Nat) (db : TrieNode)
    (structs : List (List Pos)) (st : Board × Nat) : Option (Board × Nat) :=
  (List.range st.1.length).foldlM (fillSentenceE k wc wr stream db structs) st

/-- The `while True` loop of `_generate_words` with the failure path:
fuel `W₀ + 1` is proven sufficient (claim C4). An exception during the pass
escapes before the progress checks run. -/
def genLoopFuelE (k : Nat) (wc wr : ℚ) (stream : Nat → Nat) (db : TrieNode)
    (structs : List (List Pos)) : Nat → Board × Nat → Nat → GenOutcome
  | 0, _, _ => .result none
  | fuel + 1, st, oldWork =>
    match fillPassE k wc wr stream db structs st with
    | none => .raised
    | some st' =>
      if oldWork = workRemaining st'.1 then .result none
      else if workRemaining st'.1 = 0 then .result (some st'.1)
      else genLoopFuelE k wc wr stream db structs fuel st'
        (workRemaining st'.1)

/-- Source `MarkovGenerator._generate_words` with the failure path. -/
def genWordsE (k : Nat) (wc wr : ℚ) (stream : Nat → Nat) (db : TrieNode)
    (structs : List (List Pos)) (board : Board) : GenOutcome :=
  genLoopFuelE k wc wr stream db structs (workRemaining board + 1) (board, 0)
    (workRemaining board)

/-- Source `MarkovGenerator.generate` with the sampler's failure path
modelled (`generate` above abstracts it away; the conditional-safety claims
use that over-approximation, the boundedness and no-anchor claims this
exact model). -/
def generateE (k : Nat) (wc wr : ℚ) (prio : List Pos) (stream : Nat → Nat)
    (db : TrieNode) (skeleton : List Pos) (subjects : List MarkovWord) :
    GenOutcome :=
  let structs := splitSentences skeleton
  let asg := assignSubjects structs (sortSubjects prio subjects)
  if assignCheck asg.2 then genWordsE k wc wr stream db structs asg.1
  else .result none

lemma handleProjectionsE_spec (k : Nat) (wc wr : ℚ) (stream : Nat → Nat)
    (db : TrieNode) (structs : List (List Pos)) (sIdx : Nat) (st : Board × Nat)
    (blank : Option Nat) (anchors : List Nat) :
    handleProjectionsE k wc wr stream db structs sIdx st blank anchors = none ∨
    handleProjectionsE k wc wr stream db structs sIdx st blank anchors
      = some st ∨
    ∃ bi key,
      blank = some bi ∧
      key ∈ (concatProjections (anchors.filterMap (fun wi =>
        ((st.1.getD sIdx []).getD wi none).map
          (fun w => project k wc wr w wi (st.1.getD sIdx []).length
            ((structs.getD sIdx []).getD bi Pos.OTHER))))).keys ∧
      handleProjectionsE k wc wr stream db structs sIdx st blank anchors
        = some (st.1.set sIdx ((st.1.getD sIdx []).set bi (markovSelect db key)),
            st.2 + 1) := by
  cases blank with
  | none => exact Or.inr (Or.inl rfl)
  | some bi =>
    unfold handleProjectionsE
    simp only []
    by_cases he : anchors.isEmpty
    · rw [if_pos he]
      exact Or.inr (Or.inl rfl)
    · rw [if_neg he]
      by_cases hz : (concatProjections (anchors.filterMap (fun wi =>
          ((st.1.getD sIdx []).getD wi none).map
            (fun w => project k wc wr w wi (st.1.getD sIdx []).length
              ((structs.getD sIdx []).getD bi Pos.OTHER))))).keys.length = 0
      · rw [if_pos hz]
        exact Or.inr (Or.inl rfl)
      · rw [if_neg hz]
        split
        · exact Or.inl rfl
        · refine Or.inr (Or.inr ⟨bi, _, rfl, ?_, rfl⟩)
          exact getD_mem "" _ _ (Nat.mod_lt _ (Nat.pos_of_ne_zero hz))

lemma handleProjectionsE_work_le {k : Nat} {wc wr : ℚ} {stream : Nat → Nat}
    {db : TrieNode} {structs : List (List Pos)} {sIdx : Nat} {st st2 : Board × Nat}
    {blank : Option Nat} {anchors : List Nat}
    (hblank : ∀ bi, blank = some bi → (st.1.getD sIdx []).getD bi none = none)
    (h : handleProjectionsE k wc wr stream db structs sIdx st blank anchors
      = some st2) :
    workRemaining st2.1 ≤ workRemaining st.1 := by
  rcases handleProjectionsE_spec k wc wr stream db structs sIdx st blank anchors
    with heq | heq | ⟨bi, key, hbi, _, heq⟩
  · rw [heq] at h; exact absurd h (by simp)
  · rw [heq] at h
    injection h with h
    rw [← h]
  · rw [heq] at h
    injection h with h
    rw [← h]
    exact workRemaining_set_le st.1 sIdx _
      (countP_isNone_set_le _ bi _ (hblank bi hbi))

lemma handleProjectionsE_length {k : Nat} {wc wr : ℚ} {stream : Nat → Nat}
    {db : TrieNode} {structs : List (List Pos)} {sIdx : Nat} {st st2 : Board × Nat}
    {blank : Option Nat} {anchors : List Nat}
    (h : handleProjectionsE k wc wr stream db structs sIdx st blank anchors
      = some st2) :
    st2.1.length = st.1.length := by
  rcases handleProjectionsE_spec k wc wr stream db structs sIdx st blank anchors
    with heq | heq | ⟨bi, key, _, _, heq⟩
  · rw [heq] at h; exact absurd h (by simp)
  · rw [heq] at h
    injection h with h
    rw [← h]
  · rw [heq] at h
    injection h with h
    rw [← h]
    exact List.length_set _ _ _

lemma handleProjectionsE_getD_ne {k : Nat} {wc wr : ℚ} {stream : Nat → Nat}
    {db : TrieNode} {structs : List (List Pos)} {sIdx : Nat} {st st2 : Board × Nat}
    {blank : Option Nat} {anchors : List Nat} {i : Nat} (hne : sIdx ≠ i)
    (h : handleProjectionsE k wc wr stream db structs sIdx st blank anchors
      = some st2) :
    st2.1.getD i [] = st.1.getD i [] := by
  rcases handleProjectionsE_spec k wc wr stream db structs sIdx st blank anchors
    with heq | heq | ⟨bi, key, _, _, heq⟩
  · rw [heq] at h; exact absurd h (by simp)
  · rw [heq] at h
    injection h with h
    rw [← h]
  · rw [heq] at h
    injection h with h
    rw [← h]
    exact getD_set_ne _ _ _ _ _ hne

lemma handleProjectionsE_anchors_nil (k : Nat) (wc wr : ℚ) (stream : Nat → Nat)
    (db : TrieNode) (structs : List (List Pos)) (sIdx : Nat) (st : Board × Nat)
    (blank : Option Nat) :
    handleProjectionsE k wc wr stream db structs sIdx st blank [] = some st := by
  cases blank <;> rfl

lemma fillSentenceE_work_le {k : Nat} {wc wr : ℚ} {stream : Nat → Nat}
    {db : TrieNode} {structs : List (List Pos)} {st st2 : Board × Nat} {sIdx : Nat}
    (h : fillSentenceE k wc wr stream db structs st sIdx = some st2) :
    workRemaining st2.1 ≤ workRemaining st.1 := by
  unfold fillSentenceE at h
  cases h1 : handleProjectionsE k wc wr stream db structs sIdx st
      (sweepScan k (st.1.getD sIdx []).enum none).1
      (sweepScan k (st.1.getD sIdx []).enum none).2 with
  | none => rw [h1] at h; exact absurd h (by simp)
  | some st1 =>
    rw [h1] at h
    simp only [] at h
    exact le_trans
      (handleProjectionsE_work_le
        (fun bi hbi => sweepScan_enum_reverse_blank_slot k _ bi hbi) h)
      (handleProjectionsE_work_le
        (fun bi hbi => sweepScan_enum_blank_slot k _ bi hbi) h1)

lemma fillSentenceE_length {k : Nat} {wc wr : ℚ} {stream : Nat → Nat}
    {db : TrieNode} {structs : List (List Pos)} {st st2 : Board × Nat} {sIdx : Nat}
    (h : fillSentenceE k wc wr stream db structs st sIdx = some st2) :
    st2.1.length = st.1.length := by
  unfold fillSentenceE at h
  cases h1 : handleProjectionsE k wc wr stream db structs sIdx st
      (sweepScan k (st.1.getD sIdx []).enum none).1
      (sweepScan k (st.1.getD sIdx []).enum none).2 with
  | none => rw [h1] at h; exact absurd h (by simp)
  | some st1 =>
    rw [h1] at h
    simp only [] at h
    rw [handleProjectionsE_length h, handleProjectionsE_length h1]

lemma fillSentenceE_getD_ne {k : Nat} {wc wr : ℚ} {stream : Nat → Nat}
    {db : TrieNode} {structs : List (List Pos)} {st st2 : Board × Nat}
    {sIdx i : Nat} (hne : sIdx ≠ i)
    (h : fillSentenceE k wc wr stream db structs st sIdx = some st2) :
    st2.1.getD i [] = st.1.getD i [] := by
  unfold fillSentenceE at h
  cases h1 : handleProjectionsE k wc wr stream db structs sIdx st
      (sweepScan k (st.1.getD sIdx []).enum none).1
      (sweepScan k (st.1.getD sIdx []).enum none).2 with
  | none => rw [h1] at h; exact absurd h (by simp)
  | some st1 =>
    rw [h1] at h
    simp only [] at h
    rw [handleProjectionsE_getD_ne hne h, handleProjectionsE_getD_ne hne h1]

lemma fillSentenceE_self_all_blank (k : Nat) (wc wr : ℚ) (stream : Nat → Nat)
    (db : TrieNode) (structs : List (List Pos)) (st : Board × Nat) (sIdx : Nat)
    (hall : ∀ w ∈ st.1.getD sIdx [], w = none) :
    fillSentenceE k wc wr stream db structs st sIdx = some st := by
  have henum : ∀ p ∈ (st.1.getD sIdx []).enum, p.2 = (none : Option MarkovWord) := by
    intro p hp
    cases p with
    | mk i x =>
      obtain ⟨hi, hget⟩ := mem_enum_getD none _ i x hp
      exact hall x (hget ▸ getD_mem none _ i hi)
  have ha1 : (sweepScan k (st.1.getD sIdx []).enum none).2 = [] :=
    sweepScan_all_blank _ _ henum
  unfold fillSentenceE
  rw [ha1, handleProjectionsE_anchors_nil]
  show handleProjectionsE k wc wr stream db structs sIdx st
      (sweepScan k (st.1.getD sIdx []).enum.reverse none).1
      (sweepScan k (st.1.getD sIdx []).enum.reverse none).2 = some st
  have henum2 : ∀ p ∈ (st.1.getD sIdx []).enum.reverse,
      p.2 = (none : Option MarkovWord) :=
    fun p hp => henum p (List.mem_reverse.mp hp)
  have ha2 : (sweepScan k (st.1.getD sIdx []).enum.reverse none).2 = [] :=
    sweepScan_all_blank _ _ henum2
  rw [ha2, handleProjectionsE_anchors_nil]

lemma foldlM_fillSentenceE_work_le (k : Nat) (wc wr : ℚ) (stream : Nat → Nat)
    (db : TrieNode) (structs : List (List Pos)) :
    ∀ (idxs : List Nat) (st st2 : Board × Nat),
      idxs.foldlM (fillSentenceE k wc wr stream db structs) st = some st2 →
      workRemaining st2.1 ≤ workRemaining st.1
  | [], st, st2, h => by
    rw [List.foldlM_nil] at h
    injection h with h
    rw [← h]
  | j :: idxs, st, st2, h => by
    rw [List.foldlM_cons] at h
    cases h1 : fillSentenceE k wc wr stream db structs st j with
    | none => rw [h1] at h; exact absurd h (by simp)
    | some st1 =>
      rw [h1, Option.bind_eq_bind, Option.some_bind] at h
      exact le_trans
        (foldlM_fillSentenceE_work_le k wc wr stream db structs idxs st1 st2 h)
        (fillSentenceE_work_le h1)

lemma foldlM_fillSentenceE_length (k : Nat) (wc wr : ℚ) (stream : Nat → Nat)
    (db : TrieNode) (structs : List (List Pos)) :
    ∀ (idxs : List Nat) (st st2 : Board × Nat),
      idxs.foldlM (fillSentenceE k wc wr stream db structs) st = some st2 →
      st2.1.length = st.1.length
  | [], st, st2, h => by
    rw [List.foldlM_nil] at h
    injection h with h
    rw [← h]
  | j :: idxs, st, st2, h => by
    rw [List.foldlM_cons] at h
    cases h1 : fillSentenceE k wc wr stream db structs st j with
    | none => rw [h1] at h; exact absurd h (by simp)
    | some st1 =>
      rw [h1, Option.bind_eq_bind, Option.some_bind] at h
      rw [foldlM_fillSentenceE_length k wc wr stream db structs idxs st1 st2 h,
        fillSentenceE_length h1]

lemma foldlM_fillSentenceE_blank_getD (k : Nat) (wc wr : ℚ) (stream : Nat → Nat)
    (db : TrieNode) (structs : List (List Pos)) (i : Nat) :
    ∀ (idxs : List Nat) (st st2 : Board × Nat),
      (∀ w ∈ st.1.getD i [], w = none) →
      idxs.foldlM (fillSentenceE k wc wr stream db structs) st = some st2 →
      st2.1.getD i [] = st.1.getD i []
  | [], st, st2, _, h => by
    rw [List.foldlM_nil] at h
    injection h with h
    rw [← h]
  | j :: idxs, st, st2, hall, h => by
    rw [List.foldlM_cons] at h
    cases h1 : fillSentenceE k wc wr stream db structs st j with
    | none => rw [h1] at h; exact absurd h (by simp)
    | some st1 =>
      rw [h1, Option.bind_eq_bind, Option.some_bind] at h
      have hstep : st1.1.getD i [] = st.1.getD i [] := by
        by_cases hji : j = i
        · subst hji
          have hself := fillSentenceE_self_all_blank k wc wr stream db structs
            st j hall
          rw [hself] at h1
          injection h1 with h1
          rw [h1]
        · exact fillSentenceE_getD_ne hji h1
      have hall' : ∀ w ∈ st1.1.getD i [], w = none := by
        rw [hstep]; exact hall
      rw [foldlM_fillSentenceE_blank_getD k wc wr stream db structs i idxs
        st1 st2 hall' h, hstep]

lemma genLoopFuelE_stable (k : Nat) (wc wr : ℚ) (stream : Nat → Nat)
    (db : TrieNode) (structs : List (List Pos)) :
    ∀ (w fuel1 fuel2 : Nat) (st : Board × Nat),
      workRemaining st.1 ≤ w → w < fuel1 → w < fuel2 →
      genLoopFuelE k wc wr stream db structs fuel1 st w
        = genLoopFuelE k wc wr stream db structs fuel2 st w := by
  intro w
  induction w using Nat.strong_induction_on with
  | _ w ih =>
    intro fuel1 fuel2 st hw h1 h2
    obtain ⟨f1, rfl⟩ : ∃ f, fuel1 = f + 1 := ⟨fuel1 - 1, by omega⟩
    obtain ⟨f2, rfl⟩ : ∃ f, fuel2 = f + 1 := ⟨fuel2 - 1, by omega⟩
    rw [genLoopFuelE, genLoopFuelE]
    cases hfp : fillPassE k wc wr stream db structs st with
    | none => rfl
    | some st' =>
      simp only []
      by_cases he : w = workRemaining st'.1
      · rw [if_pos he, if_pos he]
      · rw [if_neg he, if_neg he]
        by_cases hz : workRemaining st'.1 = 0
        · rw [if_pos hz, if_pos hz]
        · rw [if_neg hz, if_neg hz]
          have hle : workRemaining st'.1 ≤ workRemaining st.1 :=
            foldlM_fillSentenceE_work_le k wc wr stream db structs _ st st' hfp
          have hlt : workRemaining st'.1 < w :=
            lt_of_le_of_ne (le_trans hle hw) (fun e => he e.symm)
          exact ih _ hlt f1 f2 _ (le_refl _) (by omega) (by omega)

lemma genLoopFuelE_blank (k : Nat) (wc wr : ℚ) (stream : Nat → Nat)
    (db : TrieNode) (structs : List (List Pos)) :
    ∀ (fuel : Nat) (st : Board × Nat) (w i : Nat),
      i < st.1.length → st.1.getD i [] ≠ [] →
      (∀ x ∈ st.1.getD i [], x = none) →
      genLoopFuelE k wc wr stream db structs fuel st w = GenOutcome.raised ∨
      genLoopFuelE k wc wr stream db structs fuel st w = GenOutcome.result none
  | 0, _, _, _, _, _, _ => Or.inr rfl
  | fuel + 1, st, w, i, hi, hne, hall => by
    rw [genLoopFuelE]
    cases hfp : fillPassE k wc wr stream db structs st with
    | none => exact Or.inl rfl
    | some st' =>
      simp only []
      have hgd : st'.1.getD i [] = st.1.getD i [] :=
        foldlM_fillSentenceE_blank_getD k wc wr stream db structs i _ st st'
          hall hfp
      have hlen : st'.1.length = st.1.length :=
        foldlM_fillSentenceE_length k wc wr stream db structs _ st st' hfp
      have hcnt : (st.1.getD i []).countP (fun w => w.isNone)
          = (st.1.getD i []).length :=
        List.countP_eq_length.mpr (fun x hx => by rw [hall x hx]; rfl)
      have hpos : 0 < (st.1.getD i []).length := List.length_pos.mpr hne
      have hge : 0 < workRemaining st'.1 := by
        have hws := workRemaining_ge_sentence st'.1 i (by rw [hlen]; exact hi)
        rw [hgd, hcnt] at hws
        omega
      by_cases he : w = workRemaining st'.1
      · rw [if_pos he]; exact Or.inr rfl
      · rw [if_neg he, if_neg (by omega)]
        exact genLoopFuelE_blank k wc wr stream db structs fuel st' _ i
          (by rw [hlen]; exact hi) (by rw [hgd]; exact hne)
          (by rw [hgd]; exact hall)

lemma handleProjectionsE_blank_none (k : Nat) (wc wr : ℚ) (stream : Nat → Nat)
    (db : TrieNode) (structs : List (List Pos)) (sIdx : Nat) (st : Board × Nat)
    (anchors : List Nat) :
    handleProjectionsE k wc wr stream db structs sIdx st none anchors = some st :=
  rfl

lemma fillSentenceE_none_of_first {k : Nat} {wc wr : ℚ} {stream : Nat → Nat}
    {db : TrieNode} {structs : List (List Pos)} {st : Board × Nat} {sIdx : Nat}
    (h : handleProjectionsE k wc wr stream db structs sIdx st
      (sweepScan k (st.1.getD sIdx []).enum none).1
      (sweepScan k (st.1.getD sIdx []).enum none).2 = none) :
    fillSentenceE k wc wr stream db structs st sIdx = none := by
  unfold fillSentenceE
  rw [h]

lemma fillSentenceE_eq_of_both {k : Nat} {wc wr : ℚ} {stream : Nat → Nat}
    {db : TrieNode} {structs : List (List Pos)} {st st1 st2 : Board × Nat}
    {sIdx : Nat}
    (h1 : handleProjectionsE k wc wr stream db structs sIdx st
      (sweepScan k (st.1.getD sIdx []).enum none).1
      (sweepScan k (st.1.getD sIdx []).enum none).2 = some st1)
    (h2 : handleProjectionsE k wc wr stream db structs sIdx st1
      (sweepScan k (st1.1.getD sIdx []).enum.reverse none).1
      (sweepScan k (st1.1.getD sIdx []).enum.reverse none).2 = some st2) :
    fillSentenceE k wc wr stream db structs st sIdx = some st2 := by
  unfold fillSentenceE
  rw [h1]
  exact h2

/-- On the C4 counterexample state, the one projection call of the forward
sweep hits an all-zero blank column (the `sat` histogram mass scatters to
index `1`, not the blank index `0`), so the sampler raises. -/
lemma c4hp : handleProjectionsE 8 1 1 (fun _ => 0) c1db [[Pos.VERB, Pos.NOUN]] 0
    ([[none, some c1subject]], 0) (some 0) [1] = none := by
  unfold handleProjectionsE
  simp only []
  rw [if_neg (by decide : ¬(([1] : List Nat).isEmpty = true))]
  rw [if_neg (by decide)]
  split
  · rfl
  · next h =>
    exfalso
    apply h
    left
    norm_num [concatProjections, project, projRow, projRowAux, selectNeighbors,
      c1subject, List.filterMap, List.flatMap]

lemma c4fs : fillSentenceE 8 1 1 (fun _ => 0) c1db [[Pos.VERB, Pos.NOUN]]
    ([[none, some c1subject]], 0) 0 = none :=
  fillSentenceE_none_of_first c4hp

lemma c4fp : fillPassE 8 1 1 (fun _ => 0) c1db [[Pos.VERB, Pos.NOUN]]
    ([[none, some c1subject]], 0) = none := by
  show ([0] : List Nat).foldlM
    (fillSentenceE 8 1 1 (fun _ => 0) c1db [[Pos.VERB, Pos.NOUN]])
    ([[none, some c1subject]], 0) = none
  rw [List.foldlM_cons, c4fs]
  rfl

lemma c4_raise :
    generateE 8 1 1 MARKOV_GENERATE_SUBJECT_POS_PRIORITY (fun _ => 0) c1db
      [Pos.VERB, Pos.NOUN, Pos.EOS] [c1subject] = GenOutcome.raised := by
  show genLoopFuelE 8 1 1 (fun _ => 0) c1db [[Pos.VERB, Pos.NOUN]] (1 + 1)
    ([[none, some c1subject]], 0) 1 = GenOutcome.raised
  rw [genLoopFuelE, c4fp]

/-- C4, counterexample: the claim says `generate` always terminates with a
fully filled result or null, but it can instead raise. Store: `cat` (NOUN,
with one VERB neighbor `sat` at distance `+1`) and `sat`; skeleton
`[VERB, NOUN, EOS]`. The subject `cat` lands in the NOUN slot (index 1);
projecting it onto the VERB slot (index 0) scatters the histogram mass of
`sat` (distance `+1`, target index `1 - 1 + 0 + 1 = 1 ≥` nothing blocked —
but the mass sits at matrix row offset outside the blank column), so the
`blank_idx` column of `D ⊙ M` is all zeros, its column sum is `0`,
`p_values` is `0/0 = NaN`, and `np.random.choice` raises — inside the first
outer iteration, before any `Stuck`/filled verdict. -/
theorem C4_counterexample :
    generateE 8 1 1 MARKOV_GENERATE_SUBJECT_POS_PRIORITY (fun _ => 0) c1db
      [Pos.VERB, Pos.NOUN, Pos.EOS] [c1subject] = GenOutcome.raised :=
  c4_raise

/-- C4 (amended): `generate` is bounded — but it exits with a filled
result, null, or an exception from the sampler. Part (i): a fill pass that
completes without raising never increases the number of blank slots (every
`handle_projections` write targets a slot the sweep found blank), so each
outer iteration that survives the progress checks strictly decreases the
blank count. Part (ii): the loop, modelled with explicit fuel, is stable at
fuel `W₀ + 1` (`W₀` the blank count after subject assignment): any extra
fuel yields the same outcome, i.e. at most `W₀ + 1` outer iterations decide
the verdict. -/
theorem C4_generate_bounded (k : Nat) (wc wr : ℚ) (stream : Nat → Nat)
    (db : TrieNode) (structs : List (List Pos)) :
    (∀ st st' : Board × Nat,
      fillPassE k wc wr stream db structs st = some st' →
      workRemaining st'.1 ≤ workRemaining st.1) ∧
    (∀ (board : Board) (extra : Nat),
      genLoopFuelE k wc wr stream db structs
          (workRemaining board + 1 + extra) (board, 0) (workRemaining board)
        = genWordsE k wc wr stream db structs board) := by
  constructor
  · intro st st' h
    exact foldlM_fillSentenceE_work_le k wc wr stream db structs _ st st' h
  · intro board extra
    unfold genWordsE
    exact genLoopFuelE_stable k wc wr stream db structs (workRemaining board)
      _ _ (board, 0) (le_refl _) (by omega) (by omega)

/-- Witness for C4: a concrete completed fill pass (one sentence, one
already-filled slot) whose blank count does not increase. -/
theorem C4_witness :
    fillPassE 8 1 1 (fun _ => 0) emptyTrie [[Pos.NOUN]] ([[some c1sat]], 0)
      = some ([[some c1sat]], 0) ∧
    workRemaining [[some c1sat]] ≤ workRemaining [[some c1sat]] :=
  ⟨rfl, (C4_generate_bounded 8 1 1 (fun _ => 0) emptyTrie [[Pos.NOUN]]).1
    ([[some c1sat]], 0) ([[some c1sat]], 0) rfl⟩

/-- On the C1 counterexample state, the reverse-sweep projection of `cat`
onto the VERB blank has column value `1 · (1·w_c + 0·w_r) = 1`: the
probability vector is valid, the draw picks `sat`, and the slot is filled. -/
lemma c1hp : handleProjectionsE 8 1 1 (fun _ => 0) c1db [[], [Pos.NOUN, Pos.VERB]]
    1 ([[], [some c1subject, none]], 0) (some 1) [0]
    = some ([[], [some c1subject, some c1sat]], 1) := by
  unfold handleProjectionsE
  simp only []
  rw [if_neg (by decide : ¬(([0] : List Nat).isEmpty = true))]
  rw [if_neg (by decide)]
  split
  · next h =>
    exfalso
    rcases h with h | h
    · norm_num [concatProjections, project, projRow, projRowAux, selectNeighbors,
        c1subject, List.filterMap, List.flatMap] at h
    · norm_num [concatProjections, project, projRow, projRowAux, selectNeighbors,
        c1subject, List.filterMap, List.flatMap] at h
  · rfl

lemma c1fs : fillSentenceE 8 1 1 (fun _ => 0) c1db [[], [Pos.NOUN, Pos.VERB]]
    ([[], [some c1subject, none]], 0) 1
    = some ([[], [some c1subject, some c1sat]], 1) :=
  fillSentenceE_eq_of_both
    (handleProjectionsE_anchors_nil 8 1 1 (fun _ => 0) c1db
      [[], [Pos.NOUN, Pos.VERB]] 1 ([[], [some c1subject, none]], 0) (some 1))
    c1hp

lemma c1fp : fillPassE 8 1 1 (fun _ => 0) c1db [[], [Pos.NOUN, Pos.VERB]]
    ([[], [some c1subject, none]], 0)
    = some ([[], [some c1subject, some c1sat]], 1) := by
  show ([0, 1] : List Nat).foldlM
    (fillSentenceE 8 1 1 (fun _ => 0) c1db [[], [Pos.NOUN, Pos.VERB]])
    ([[], [some c1subject, none]], 0)
    = some ([[], [some c1subject, some c1sat]], 1)
  rw [List.foldlM_cons,
    show fillSentenceE 8 1 1 (fun _ => 0) c1db [[], [Pos.NOUN, Pos.VERB]]
      ([[], [some c1subject, none]], 0) 0
      = some ([[], [some c1subject, none]], 0) from rfl,
    Option.bind_eq_bind, Option.some_bind, List.foldlM_cons, c1fs,
    Option.bind_eq_bind, Option.some_bind]
  rfl

/-- On the C1 counterexample input, the skeleton’s empty first segment gets
no subject, yet the one blank of the second segment is filled on the first
pass and `generate` returns a complete board. -/
lemma c1result :
    generateE 8 1 1 MARKOV_GENERATE_SUBJECT_POS_PRIORITY (fun _ => 0) c1db
      [Pos.EOS, Pos.NOUN, Pos.VERB, Pos.EOS] [c1subject]
    = GenOutcome.result (some [[], [some c1subject, some c1sat]]) := by
  show genLoopFuelE 8 1 1 (fun _ => 0) c1db [[], [Pos.NOUN, Pos.VERB]] (1 + 1)
    ([[], [some c1subject, none]], 0) 1
    = GenOutcome.result (some [[], [some c1subject, some c1sat]])
  rw [genLoopFuelE, c1fp]
  simp only []
  rw [if_neg (by decide), if_pos (by decide)]

/-- C1, counterexample: the claim says that whenever some sentence segment
receives no subject, `generate` fails and returns null. Skeleton
`[EOS, NOUN, VERB, EOS]` splits into an empty first segment and `[NOUN, VERB]`;
the single subject `cat` is placed only in the second segment, so the first
segment’s assignment flag stays `None` — it received no subject — yet
`generate` returns a filled, non-null board (the dead `NoAnchor` check never
fires). -/
theorem C1_counterexample :
    ((assignSubjects (splitSentences [Pos.EOS, Pos.NOUN, Pos.VERB, Pos.EOS])
        (sortSubjects MARKOV_GENERATE_SUBJECT_POS_PRIORITY [c1subject])).2).getD
        0 (some false) = none ∧
    generateE 8 1 1 MARKOV_GENERATE_SUBJECT_POS_PRIORITY (fun _ => 0) c1db
        [Pos.EOS, Pos.NOUN, Pos.VERB, Pos.EOS] [c1subject]
      = GenOutcome.result (some [[], [some c1subject, some c1sat]]) :=
  ⟨rfl, c1result⟩

/-- C1 (amended): the `NoAnchor` post-check of `_assign_subjects` compares
its `None`/`True` flags against a literal `False` and therefore never fires;
`generate` never fails through it. What does hold: if some *non-empty*
sentence segment receives no subject (its assignment flag stays `None`),
all its slots stay blank forever — projections need a filled anchor in the
same sentence — so `generate` never returns a filled result: it returns
`null` via the no-progress (`Stuck`) exit, unless a projection elsewhere
raises first. Empty segments escape this: see the counterexample. In
particular skeleton `[ADJ, EOS]` with a single NOUN subject yields `null`
(the witness). -/
theorem C1_amended (k : Nat) (wc wr : ℚ) (prio : List Pos) (stream : Nat → Nat)
    (db : TrieNode) (skeleton : List Pos) (subjects : List MarkovWord) (i : Nat)
    (hi : i < (splitSentences skeleton).length)
    (hne : (splitSentences skeleton).getD i [] ≠ [])
    (hflag : ((assignSubjects (splitSentences skeleton)
        (sortSubjects prio subjects)).2).getD i (some false) = none) :
    generateE k wc wr prio stream db skeleton subjects = GenOutcome.raised ∨
    generateE k wc wr prio stream db skeleton subjects
      = GenOutcome.result none := by
  unfold generateE
  rw [if_pos (assignCheck_assign _ _)]
  unfold genWordsE
  have hb1 : (assignSubjects (splitSentences skeleton)
      (sortSubjects prio subjects)).1.getD i []
      = (assignSentence (sortSubjects prio subjects)
          ((splitSentences skeleton).getD i [])).1 := by
    rw [assignSubjects_fst]
    exact getD_map _ [] ([] : List Pos) _ i hi
  have hflag' : (assignSentence (sortSubjects prio subjects)
      ((splitSentences skeleton).getD i [])).2 = none := by
    rw [assignSubjects_snd] at hflag
    rw [← getD_map (fun sent => (assignSentence (sortSubjects prio subjects)
      sent).2) (some false) ([] : List Pos) _ i hi]
    exact hflag
  have hall : ∀ x ∈ (assignSubjects (splitSentences skeleton)
      (sortSubjects prio subjects)).1.getD i [], x = none := by
    rw [hb1]
    exact assignSentence_flag_none _ _ hflag'
  have hlen1 : (assignSubjects (splitSentences skeleton)
      (sortSubjects prio subjects)).1.length
      = (splitSentences skeleton).length := by
    rw [assignSubjects_fst]
    simp
  have hne1 : (assignSubjects (splitSentences skeleton)
      (sortSubjects prio subjects)).1.getD i [] ≠ [] := by
    rw [hb1]
    unfold assignSentence
    simp only []
    intro hempty
    exact hne (List.map_eq_nil_iff.mp hempty)
  exact genLoopFuelE_blank k wc wr stream db (splitSentences skeleton) _ _ _ i
    (by rw [hlen1]; exact hi) hne1 hall

/-- Witness for C1 (amended) at the spec’s own example: skeleton
`[ADJ, EOS]` with a single NOUN subject — the one segment `[ADJ]` is
non-empty and receives no subject, and `generate` raises or returns null. -/
theorem C1_witness :
    (0 < (splitSentences [Pos.ADJ, Pos.EOS]).length ∧
      (splitSentences [Pos.ADJ, Pos.EOS]).getD 0 [] ≠ [] ∧
      ((assignSubjects (splitSentences [Pos.ADJ, Pos.EOS])
          (sortSubjects MARKOV_GENERATE_SUBJECT_POS_PRIORITY
            [⟨"cat", Pos.NOUN, []⟩])).2).getD 0 (some false) = none) ∧
    (generateE 8 1 1 MARKOV_GENERATE_SUBJECT_POS_PRIORITY (fun _ => 0) emptyTrie
        [Pos.ADJ, Pos.EOS] [⟨"cat", Pos.NOUN, []⟩] = GenOutcome.raised ∨
      generateE 8 1 1 MARKOV_GENERATE_SUBJECT_POS_PRIORITY (fun _ => 0) emptyTrie
        [Pos.ADJ, Pos.EOS] [⟨"cat", Pos.NOUN, []⟩]
        = GenOutcome.result none) :=
  ⟨⟨by decide, by decide, by rfl⟩,
    C1_amended 8 1 1 MARKOV_GENERATE_SUBJECT_POS_PRIORITY (fun _ => 0) emptyTrie
      [Pos.ADJ, Pos.EOS] [⟨"cat", Pos.NOUN, []⟩] 0 (by decide) (by decide)
      (by rfl)⟩
